import Mathlib

/-!
# Verification of the rdbms-to-graph-migration core

A shallow embedding of the two transformation stages of the
rdbms-to-graph-migration project — the Semantic Enricher
(`src/analyzers/semantic_enricher.py`, the S→C pass) and the Graph
Transformer (`src/transformers/graph_transformer.py`, the C→T pass) —
together with the data-model classes they operate on
(`src/models/schema_model.py`, `src/models/conceptual_model.py`,
`src/models/graph_model.py`) and the string helpers from
`src/utils/helpers.py`.

Modelling conventions:
* Python strings are modelled as Lean `String` and all case operations are
  the ASCII ones (the repository only manipulates ASCII identifiers).
* Python `dict`s (which preserve insertion order) are modelled as
  association lists with overwrite-on-assign semantics; `DatabaseSchema.tables`
  is a `List Table` whose names are unique because the dict is keyed by name.
* `None`-able fields become `Option`; Python truthiness of `Optional[str]`
  (`None` and the empty string are falsy) is `pyTruthy`.
* In-place mutation of `Table`/`ForeignKey` objects becomes explicit state
  passing: each enrichment pass maps the schema to an updated schema.
* Python runtime errors (`TypeError`, `ValueError`, `AttributeError`) are
  modelled with `Except PyError`; code in which no operation can raise is
  translated as a total function.
* `json.loads` and `str(...)` on non-string values are external library
  behaviour and are abstracted as function parameters.
-/

namespace RDB

/-! ## ASCII character and string operations (Python `str` methods) -/

/-- ASCII upper-casing of a single character (Python `str.upper` per char). -/
def asciiUpperChar (c : Char) : Char :=
  if c.isLower then Char.ofNat (c.toNat - 32) else c

/-- ASCII lower-casing of a single character (Python `str.lower` per char). -/
def asciiLowerChar (c : Char) : Char :=
  if c.isUpper then Char.ofNat (c.toNat + 32) else c

/-- Python `s.upper()` (ASCII). -/
def pyUpper (s : String) : String := String.mk (s.data.map asciiUpperChar)

/-- Python `s.lower()` (ASCII). -/
def pyLower (s : String) : String := String.mk (s.data.map asciiLowerChar)

/-- Substring test on character lists: `needle` occurs inside `hay`.
Mirrors Python `needle in hay` (the empty needle is in every string). -/
def hasSub : List Char → List Char → Bool
  | [], needle => needle.isEmpty
  | c :: t, needle => needle.isPrefixOf (c :: t) || hasSub t needle

/-- Python `needle in hay` for strings. -/
def pyIn (needle hay : String) : Bool := hasSub hay.data needle.data

/-- Replace every (non-overlapping, left-to-right) occurrence of `old` by
`new`, as Python `str.replace` does.  The recursion is made structural on
a fuel argument (at least the input length) so that the definition
reduces; when `old` matches, at least one character of the input is
consumed, so the fuel never runs out on the `replaceList` wrapper below.
The repository only ever calls `replace` with a non-empty `old`; for
`old = []` the steps below leave the input unchanged (Python would
instead interleave `new` everywhere). -/
def replaceListAux (old new : List Char) : Nat → List Char → List Char
  | 0, l => l
  | _ + 1, [] => []
  | fuel + 1, c :: rest =>
    if !old.isEmpty && old.isPrefixOf (c :: rest) then
      new ++ replaceListAux old new fuel ((c :: rest).drop old.length)
    else
      c :: replaceListAux old new fuel rest

/-- Python `str.replace` on character lists. -/
def replaceList (old new l : List Char) : List Char :=
  replaceListAux old new l.length l

/-- Python `s.replace(old, new)`. -/
def pyReplace (s old new : String) : String :=
  String.mk (replaceList old.data new.data s.data)

/-- Python `s.strip(c)` on character lists (strip `c` from both ends). -/
def stripChar (c : Char) (l : List Char) : List Char :=
  ((l.dropWhile (· == c)).reverse.dropWhile (· == c)).reverse

/-- Python `s.rstrip(c)` on character lists. -/
def rstripChar (c : Char) (l : List Char) : List Char :=
  (l.reverse.dropWhile (· == c)).reverse

/-- Python `word.capitalize()`: first character upper-cased, the rest
lower-cased (ASCII). -/
def capitalizeList : List Char → List Char
  | [] => []
  | c :: t => asciiUpperChar c :: t.map asciiLowerChar

/-- Helper for Python `str.title()`: the flag records whether the previous
character was a letter (a cased character). -/
def pyTitleAux : Bool → List Char → List Char
  | _, [] => []
  | prevAlpha, c :: t =>
    (if c.isAlpha then (if prevAlpha then asciiLowerChar c else asciiUpperChar c) else c)
      :: pyTitleAux c.isAlpha t

/-- Python `s.title()` (ASCII): letters starting a run of letters are
upper-cased, the other letters lower-cased. -/
def pyTitle (s : String) : String := String.mk (pyTitleAux false s.data)

/-- Python truthiness of an `Optional[str]` value: `None` and `""` are falsy. -/
def pyTruthy : Option String → Bool
  | none => false
  | some s => !(s == "")

/-- Python `opt or dflt` for an `Optional[str]`. -/
def pyOrElse (opt : Option String) (dflt : String) : String :=
  match opt with
  | some s => if s == "" then dflt else s
  | none => dflt

/-! ## Helper functions from `src/utils/helpers.py` -/

/-- A character kept by the `[^a-zA-Z0-9_]` regexes in the sanitizers. -/
def keepIdentChar (c : Char) : Bool := c.isAlpha || c.isDigit || c == '_'

/-- `helpers.sanitize_label`: drop non-identifier characters, ensure a
leading letter, split on underscores and capitalize each part (PascalCase);
empty results become `"Node"`. -/
def sanitize_label (name : String) : String :=
  let sanitized := name.data.filter keepIdentChar
  let sanitized :=
    match sanitized with
    | [] => []
    | c :: t => if !c.isAlpha then 'N' :: c :: t else c :: t
  let parts := sanitized.splitOn '_'
  let joined := List.flatten ((parts.filter (fun w => w ≠ [])).map capitalizeList)
  if joined = [] then "Node" else String.mk joined

/-- `helpers.sanitize_property_name`: replace non-identifier characters by
underscores, strip underscores, and convert to camelCase; empty results
become `"property"`. -/
def sanitize_property_name (name : String) : String :=
  let sanitized := name.data.map (fun c => if keepIdentChar c then c else '_')
  let sanitized := stripChar '_' sanitized
  let parts := sanitized.splitOn '_'
  match parts with
  | [] => "property"
  | p0 :: rest =>
    let out := p0.map asciiLowerChar
        ++ List.flatten ((rest.filter (fun w => w ≠ [])).map capitalizeList)
    if out = [] then "property" else String.mk out

/-- The `re.sub(r'([A-Z])', r'_\1', s)` step of
`helpers.create_relationship_type_name`. -/
def underscoreBeforeUpper (l : List Char) : List Char :=
  l.flatMap (fun c => if c.isUpper then ['_', c] else [c])

/-- The `re.sub(r'_+', '_', s)` step: collapse runs of underscores. -/
def collapseUnderscores : List Char → List Char
  | [] => []
  | [c] => [c]
  | c :: d :: t =>
    if c == '_' && d == '_' then collapseUnderscores (d :: t)
    else c :: collapseUnderscores (d :: t)

/-- `helpers.create_relationship_type_name` (the optional `fk_name`
argument is never used by the function body and is omitted). -/
def create_relationship_type_name (from_table to_table : String) : String :=
  let from_singular := String.mk (rstripChar 's' from_table.data)
  let to_singular := String.mk (rstripChar 's' to_table.data)
  let rel_name := from_singular ++ "_" ++ to_singular
  let rel_name := (underscoreBeforeUpper rel_name.data).map asciiUpperChar
  let rel_name := rel_name.map (fun c => if c.isUpper || c.isDigit || c == '_' then c else '_')
  let rel_name := collapseUnderscores rel_name
  String.mk (stripChar '_' rel_name)

/-- `helpers.convert_sql_type_to_graph_type`: substring match against the
lower-cased SQL type, first family wins. -/
def convert_sql_type_to_graph_type (sql_type : String) : String :=
  let l := pyLower sql_type
  if ["int", "serial", "bigserial"].any (fun t => pyIn t l) then "INTEGER"
  else if ["float", "double", "real", "decimal", "numeric"].any (fun t => pyIn t l) then "FLOAT"
  else if ["bool", "bit"].any (fun t => pyIn t l) then "BOOLEAN"
  else if ["date", "time", "timestamp"].any (fun t => pyIn t l) then
    (if pyIn "date" l && !(pyIn "time" l) then "DATE" else "DATETIME")
  else if pyIn "json" l then "MAP"
  else "STRING"

/-! ## Schema model (`src/models/schema_model.py`)

Fields that no code path read by the claims ever touches
(`column_type`, `max_length`, `precision`, `scale`, `default_value`,
`is_auto_increment`, `ordinal_position`, `row_count`, `schema`,
`constraints`, the `to_dict` serializers) are omitted. -/

/-- `schema_model.Column` (the fields the enricher and transformer read). -/
structure Column where
  name : String
  data_type : String
  is_nullable : Bool := true
deriving DecidableEq, Repr

/-- `schema_model.PrimaryKey`. -/
structure PrimaryKey where
  name : String
  columns : List String
deriving DecidableEq, Repr

/-- `schema_model.ForeignKey`, including the enrichment-writable fields. -/
structure ForeignKey where
  name : String
  column : String
  referenced_table : String
  referenced_column : String
  on_delete : Option String := none
  on_update : Option String := none
  cardinality : Option String := none
  relationship_name : Option String := none
  is_inheritance : Bool := false
  is_aggregation : Bool := false
  is_weak_entity : Bool := false
deriving DecidableEq, Repr

/-- `schema_model.Index`. -/
structure Index where
  name : String
  columns : List String
  is_unique : Bool := false
deriving DecidableEq, Repr

/-- `schema_model.Table`, including the enrichment-writable flags. -/
structure Table where
  name : String
  columns : List Column := []
  primary_key : Option PrimaryKey := none
  foreign_keys : List ForeignKey := []
  indexes : List Index := []
  is_superclass : Bool := false
  is_subclass : Bool := false
  superclass_table : Option String := none
  is_weak_entity : Bool := false
  owner_table : Option String := none
deriving DecidableEq, Repr

/-- `Table.get_column`: first column with the given name. -/
def Table.get_column (t : Table) (column_name : String) : Option Column :=
  t.columns.find? (fun c => c.name == column_name)

/-- `Table.is_junction_table`: exactly two foreign keys and the primary-key
columns are a subset of the foreign-key columns. -/
def Table.is_junction_table (t : Table) : Bool :=
  if t.foreign_keys.length != 2 then false
  else match t.primary_key with
    | none => false
    | some pk => pk.columns.all (fun c => t.foreign_keys.any (fun fk => fk.column == c))

/-- `schema_model.DatabaseSchema`.  `tables` models the insertion-ordered
`Dict[str, Table]`; its names are unique because the dict is keyed by
table name. -/
structure DatabaseSchema where
  database_name : String
  database_type : String
  tables : List Table := []
deriving DecidableEq, Repr

/-- `DatabaseSchema.get_table`: dict lookup by table name. -/
def DatabaseSchema.get_table (s : DatabaseSchema) (table_name : String) : Option Table :=
  s.tables.find? (fun t => t.name == table_name)

/-- `DatabaseSchema.get_junction_tables`. -/
def DatabaseSchema.get_junction_tables (s : DatabaseSchema) : List Table :=
  s.tables.filter (fun t => t.is_junction_table)

/-- `DatabaseSchema.get_entity_tables`. -/
def DatabaseSchema.get_entity_tables (s : DatabaseSchema) : List Table :=
  s.tables.filter (fun t => !t.is_junction_table)

/-- The table names of a schema (the keys of the `tables` dict). -/
def DatabaseSchema.tableNames (s : DatabaseSchema) : List String :=
  s.tables.map (fun t => t.name)

/-- Apply `f` to the first table named `n` (the dict holds at most one
entry per name, so mutating the object the dict lookup returned updates
exactly the first — and only — match). -/
def updateTableList : List Table → String → (Table → Table) → List Table
  | [], _, _ => []
  | t :: rest, n, f =>
    if t.name == n then f t :: rest else t :: updateTableList rest n f

/-- Apply `f` to the table named `n` in the schema. -/
def DatabaseSchema.updateTable (s : DatabaseSchema) (n : String) (f : Table → Table) :
    DatabaseSchema :=
  { s with tables := updateTableList s.tables n f }

/-! ## Conceptual model (`src/models/conceptual_model.py`) -/

/-- `conceptual_model.EntityType`. -/
inductive EntityType where
  | STRONG
  | WEAK
  | ASSOCIATIVE
deriving DecidableEq, Repr

/-- `conceptual_model.RelationshipCardinality`. -/
inductive RelationshipCardinality where
  | ONE_TO_ONE
  | ONE_TO_MANY
  | MANY_TO_ONE
  | MANY_TO_MANY
deriving DecidableEq, Repr

/-- The `.value` string of a `RelationshipCardinality`. -/
def RelationshipCardinality.val : RelationshipCardinality → String
  | .ONE_TO_ONE => "1:1"
  | .ONE_TO_MANY => "1:N"
  | .MANY_TO_ONE => "N:1"
  | .MANY_TO_MANY => "N:M"

/-- `conceptual_model.RelationshipSemantics`. -/
inductive RelationshipSemantics where
  | ASSOCIATION
  | INHERITANCE
  | AGGREGATION
  | COMPOSITION
deriving DecidableEq, Repr

/-- The `.value` string of a `RelationshipSemantics`. -/
def RelationshipSemantics.val : RelationshipSemantics → String
  | .ASSOCIATION => "ASSOCIATION"
  | .INHERITANCE => "INHERITANCE"
  | .AGGREGATION => "AGGREGATION"
  | .COMPOSITION => "COMPOSITION"

/-- `conceptual_model.ConceptualEntity` (`superclass` models the
Python field `superclass`; `discriminator` is never written and omitted). -/
structure ConceptualEntity where
  name : String
  entity_type : EntityType
  source_table : String
  attributes : List String := []
  key_attributes : List String := []
  superclass : Option String := none
  subclasses : List String := []
  owner_entity : Option String := none
deriving DecidableEq, Repr

/-- `conceptual_model.ConceptualRelationship` (`participation_note` is
never written and omitted). -/
structure ConceptualRelationship where
  name : String
  source_entity : String
  target_entity : String
  cardinality : RelationshipCardinality
  semantics : RelationshipSemantics
  source_foreign_key : Option String := none
  source_junction_table : Option String := none
  attributes : List String := []
  is_mandatory_source : Bool := false
  is_mandatory_target : Bool := false
deriving DecidableEq, Repr

/-- `conceptual_model.ConceptualModel`.  `entities` models the
insertion-ordered `Dict[str, ConceptualEntity]` keyed by entity name;
`weak_entity_groups` the `Dict[str, List[str]]` keyed by owner name. -/
structure ConceptualModel where
  name : String
  source_schema_name : String
  entities : List ConceptualEntity := []
  relationships : List ConceptualRelationship := []
  inheritance_hierarchies : List (List String) := []
  weak_entity_groups : List (String × List String) := []
deriving DecidableEq, Repr

/-- `ConceptualModel.add_entity`: dict assignment keyed by entity name
(overwrite the existing entry, else append). -/
def addEntityList (es : List ConceptualEntity) (e : ConceptualEntity) :
    List ConceptualEntity :=
  if es.any (fun e0 => e0.name == e.name) then
    es.map (fun e0 => if e0.name == e.name then e else e0)
  else
    es ++ [e]

/-! ## Graph model (`src/models/graph_model.py`) -/

/-- `graph_model.PropertyType`. -/
inductive PropertyType where
  | STRING
  | INTEGER
  | FLOAT
  | BOOLEAN
  | DATE
  | DATETIME
  | LIST
  | MAP
deriving DecidableEq, Repr

/-- `graph_model.Property`. -/
structure Property where
  name : String
  type : PropertyType
  is_required : Bool := false
  is_indexed : Bool := false
  original_column : Option String := none
deriving DecidableEq, Repr

/-- `graph_model.NodeLabel` (`constraints` is never written and omitted). -/
structure NodeLabel where
  name : String
  properties : List Property := []
  source_table : Option String := none
  primary_key : Option String := none
  indexes : List String := []
deriving DecidableEq, Repr

/-- `graph_model.RelationshipType`. -/
structure RelationshipType where
  name : String
  from_label : String
  to_label : String
  properties : List Property := []
  source_foreign_key : Option String := none
  source_junction_table : Option String := none
  is_required : Bool := false
deriving DecidableEq, Repr

/-- `graph_model.GraphModel`: both maps are insertion-ordered dicts,
modelled as association lists with overwrite-on-assign. -/
structure GraphModel where
  name : String
  node_labels : List (String × NodeLabel) := []
  relationship_types : List (String × RelationshipType) := []
  source_schema_name : Option String := none
deriving DecidableEq, Repr

/-- Dict assignment `d[k] = v` on an association list: overwrite the
existing entry for `k` in place, else append `(k, v)`. -/
def assocSet (l : List (String × α)) (k : String) (v : α) : List (String × α) :=
  if l.any (fun kv => kv.1 == k) then
    l.map (fun kv => if kv.1 == k then (k, v) else kv)
  else
    l ++ [(k, v)]

/-- Dict lookup `d.get(k)` on an association list. -/
def assocGet (l : List (String × α)) (k : String) : Option α :=
  match l.find? (fun kv => kv.1 == k) with
  | some kv => some kv.2
  | none => none

/-- `GraphModel.add_node_label`: `node_labels[label.name] = label`. -/
def GraphModel.add_node_label (g : GraphModel) (label : NodeLabel) : GraphModel :=
  { g with node_labels := assocSet g.node_labels label.name label }

/-- The dict key used by `GraphModel.add_relationship_type`:
`f"{rel_type.from_label}_{rel_type.name}_{rel_type.to_label}"`. -/
def relTypeKey (rel_type : RelationshipType) : String :=
  rel_type.from_label ++ "_" ++ rel_type.name ++ "_" ++ rel_type.to_label

/-- `GraphModel.add_relationship_type`. -/
def GraphModel.add_relationship_type (g : GraphModel) (rel_type : RelationshipType) :
    GraphModel :=
  { g with relationship_types := assocSet g.relationship_types (relTypeKey rel_type) rel_type }

/-- `GraphModel.get_node_label`. -/
def GraphModel.get_node_label (g : GraphModel) (n : String) : Option NodeLabel :=
  assocGet g.node_labels n

/-! ## Semantic Enricher (`src/analyzers/semantic_enricher.py`)

The Python passes mutate `Table`/`ForeignKey` objects in place while
iterating `self.db_schema.tables.values()`.  Here each pass maps a schema
to an updated schema; where a pass mutates tables other than the one being
iterated (pass 1 sets `is_superclass` on the referenced table) the pass is
a fold over the table names threading the whole schema, exactly mirroring
the iteration over the (never re-keyed) dict. -/

/-- `weak_entity_groups`: the insertion-ordered `Dict[str, List[str]]`. -/
abbrev WeakGroups := List (String × List String)

/-- Pass-1 state: the schema plus `conceptual_model.inheritance_hierarchies`. -/
abbrev Pass1State := DatabaseSchema × List (List String)

/-- The foreign-key mutation performed when pass 1 detects inheritance. -/
def inheritanceFkUpdate (fk : ForeignKey) : ForeignKey :=
  { fk with is_inheritance := true,
            relationship_name := some ("IS_A_" ++ pyUpper fk.referenced_table),
            cardinality := some "1:1" }

/-- `SemanticEnricher._add_to_hierarchy`: append the subclass to the first
chain containing the superclass, else start a new two-element chain. -/
def add_to_hierarchy : List (List String) → String → String → List (List String)
  | [], sup, sub => [[sup, sub]]
  | h :: rest, sup, sub =>
    if h.contains sup then (h ++ [sub]) :: rest
    else h :: add_to_hierarchy rest sup sub

/-- One iteration of the inner `for fk in table.foreign_keys` loop of
`_detect_inheritance_hierarchies`, for the foreign key at position `i` of
the table named `tname`.  The Python condition
`{fk.referenced_column} == ref_pk_columns or fk.referenced_column in ref_pk_columns`
collapses to plain membership. -/
def detectInheritanceFk (tname : String) (pk_columns : List String)
    (st : Pass1State) (i : Nat) : Pass1State :=
  match st.1.get_table tname with
  | none => st
  | some t =>
    match t.foreign_keys[i]? with
    | none => st
    | some fk =>
      if pk_columns.contains fk.column then
        match st.1.get_table fk.referenced_table with
        | none => st
        | some rt =>
          match rt.primary_key with
          | none => st
          | some rpk =>
            if rpk.columns.contains fk.referenced_column then
              let s1 := st.1.updateTable tname (fun tb =>
                { tb with is_subclass := true,
                          superclass_table := some fk.referenced_table,
                          foreign_keys := tb.foreign_keys.set i (inheritanceFkUpdate fk) })
              let s2 := s1.updateTable fk.referenced_table
                (fun tb => { tb with is_superclass := true })
              (s2, add_to_hierarchy st.2 fk.referenced_table tname)
            else st
      else st

/-- One iteration of the outer loop of `_detect_inheritance_hierarchies`:
skip tables without a primary key or without foreign keys, then run the
foreign-key loop (`pk_columns` is read from the never-mutated primary
key). -/
def detectInheritanceTable (st : Pass1State) (tname : String) : Pass1State :=
  match st.1.get_table tname with
  | none => st
  | some t =>
    match t.primary_key with
    | none => st
    | some pk =>
      if t.foreign_keys.isEmpty then st
      else (List.range t.foreign_keys.length).foldl (detectInheritanceFk tname pk.columns) st

/-- `SemanticEnricher._detect_inheritance_hierarchies` (pass 1), returning
the annotated schema and the accumulated `inheritance_hierarchies`. -/
def detect_inheritance_hierarchies (s : DatabaseSchema) : Pass1State :=
  s.tableNames.foldl detectInheritanceTable (s, [])

/-- The `weak_entity_groups` update of pass 2:
`groups.setdefault(owner, []).append(dependent)` in effect (the dict has
at most one entry per owner, so updating the first match models it). -/
def addWeakGroup : WeakGroups → String → String → WeakGroups
  | [], owner, dependent => [(owner, [dependent])]
  | kv :: rest, owner, dependent =>
    if kv.1 == owner then (kv.1, kv.2 ++ [dependent]) :: rest
    else kv :: addWeakGroup rest owner dependent

/-- Check 1 of pass 2 (`is_weak`): the foreign-key column is part of the
owning table's primary key (identifying relationship). -/
def fkIdentifying (t : Table) (fk : ForeignKey) : Bool :=
  match t.primary_key with
  | some pk => pk.columns.contains fk.column
  | none => false

/-- Check 2 of pass 2: `fk.on_delete and 'CASCADE' in fk.on_delete.upper()`. -/
def fkCascadeDelete (fk : ForeignKey) : Bool :=
  match fk.on_delete with
  | some d => pyIn "CASCADE" (pyUpper d)
  | none => false

/-- Check 3 of pass 2: the foreign-key column exists and is `NOT NULL`. -/
def fkNotNullColumn (t : Table) (fk : ForeignKey) : Bool :=
  match t.get_column fk.column with
  | some c => !c.is_nullable
  | none => false

/-- One iteration of the inner `for fk in table.foreign_keys` loop of
`_detect_weak_entities_and_aggregation`.  The accumulator carries the
foreign keys processed so far, the table's `is_weak_entity` flag and
`owner_table`, and the global `weak_entity_groups`.  All tests read only
fields this pass never writes, so reading them from the original `t` and
`fk` is faithful to the in-place mutation. -/
def detectWeakFkStep (t : Table)
    (acc : List ForeignKey × Bool × Option String × WeakGroups) (fk : ForeignKey) :
    List ForeignKey × Bool × Option String × WeakGroups :=
  let (fks, weakFlag, owner, gs) := acc
  if fk.is_inheritance then (fks ++ [fk], weakFlag, owner, gs)
  else
    let is_weak := fkIdentifying t fk
    let is_aggregation := is_weak || fkCascadeDelete fk || fkNotNullColumn t fk
    if is_weak then
      (fks ++ [{ fk with is_weak_entity := true, is_aggregation := true }], true,
       some fk.referenced_table, addWeakGroup gs fk.referenced_table t.name)
    else if is_aggregation then
      (fks ++ [{ fk with is_aggregation := true }], weakFlag, owner, gs)
    else (fks ++ [fk], weakFlag, owner, gs)

/-- One iteration of the outer loop of
`_detect_weak_entities_and_aggregation`: tables already classified as
subclasses and tables without foreign keys are skipped. -/
def detectWeakTable (acc : List Table × WeakGroups) (t : Table) : List Table × WeakGroups :=
  let (ts, gs) := acc
  if t.is_subclass then (ts ++ [t], gs)
  else if t.foreign_keys.isEmpty then (ts ++ [t], gs)
  else
    let r := t.foreign_keys.foldl (detectWeakFkStep t) ([], t.is_weak_entity, t.owner_table, gs)
    (ts ++ [{ t with foreign_keys := r.1, is_weak_entity := r.2.1, owner_table := r.2.2.1 }],
     r.2.2.2)

/-- `SemanticEnricher._detect_weak_entities_and_aggregation` (pass 2). -/
def detect_weak_entities_and_aggregation (s : DatabaseSchema) : DatabaseSchema × WeakGroups :=
  let r := s.tables.foldl detectWeakTable ([], [])
  ({ s with tables := r.1 }, r.2)

/-- The index check of `_infer_relationship_cardinality`: the Python loop
`break`s only at a single-column unique hit, so it is an existence
check. -/
def fkSingleUniqueIndex (t : Table) (fk : ForeignKey) : Bool :=
  t.indexes.any (fun idx =>
    idx.is_unique && idx.columns.contains fk.column && idx.columns.length == 1)

/-- The second `is_unique` check of `_infer_relationship_cardinality`:
`table.primary_key and len(...) == 1 and fk.column == pk.columns[0]`,
matched as the one-element list pattern. -/
def fkIsWholePk (t : Table) (fk : ForeignKey) : Bool :=
  match t.primary_key with
  | some pk =>
    match pk.columns with
    | [c] => fk.column == c
    | _ => false
  | none => false

/-- The per-foreign-key body of `_infer_relationship_cardinality`. -/
def inferFkCardinality (t : Table) (fk : ForeignKey) : ForeignKey :=
  if pyTruthy fk.cardinality then fk
  else if fkSingleUniqueIndex t fk || fkIsWholePk t fk then
    { fk with cardinality := some "1:1" }
  else { fk with cardinality := some "N:1" }

/-- `SemanticEnricher._infer_relationship_cardinality` (pass 3): every
per-foreign-key decision reads only fields this pass never writes, so the
loop is a map. -/
def infer_relationship_cardinality (s : DatabaseSchema) : DatabaseSchema :=
  { s with tables := s.tables.map (fun t =>
      { t with foreign_keys := t.foreign_keys.map (inferFkCardinality t) }) }

/-- The `verbs` dict of `_generate_relationship_names`, in insertion
order. -/
def relationshipVerbs : List (String × String) :=
  [("manager", "MANAGES"), ("employee", "EMPLOYS"), ("supervisor", "SUPERVISES"),
   ("owner", "OWNS"), ("creator", "CREATES"), ("author", "AUTHORED_BY"),
   ("user", "USED_BY"), ("customer", "PURCHASED_BY"), ("department", "WORKS_IN"),
   ("company", "WORKS_FOR"), ("category", "BELONGS_TO"), ("parent", "CHILD_OF"),
   ("project", "ASSIGNED_TO")]

/-- The `for key, verb in verbs.items(): ... break` loop: first keyword
contained in the column hint or the lower-cased referenced table wins. -/
def findVerb (fk_lower ref_table_lower : String) : List (String × String) → Option String
  | [] => none
  | (key, verb) :: rest =>
    if pyIn key fk_lower || pyIn key ref_table_lower then some verb
    else findVerb fk_lower ref_table_lower rest

/-- The per-foreign-key body of `_generate_relationship_names`:
`fk.column.lower().replace('_id', '').replace('id', '')` for the hint, and
the fallback `fk.referenced_table.replace('tbl', '').replace('_', '').upper()`. -/
def generateFkName (fk : ForeignKey) : ForeignKey :=
  if pyTruthy fk.relationship_name then fk
  else
    let fk_lower := pyReplace (pyReplace (pyLower fk.column) "_id" "") "id" ""
    let ref_table_lower := pyLower fk.referenced_table
    let relationship_name :=
      match findVerb fk_lower ref_table_lower relationshipVerbs with
      | some verb => verb
      | none =>
        let clean_ref := pyUpper (pyReplace (pyReplace fk.referenced_table "tbl" "") "_" "")
        if fk.is_aggregation then "PART_OF_" ++ clean_ref else "HAS_" ++ clean_ref
    { fk with relationship_name := some relationship_name }

/-- `SemanticEnricher._generate_relationship_names` (pass 4): the loop
body reads nothing from the enclosing table, so the pass is a map. -/
def generate_relationship_names (s : DatabaseSchema) : DatabaseSchema :=
  { s with tables := s.tables.map (fun t =>
      { t with foreign_keys := t.foreign_keys.map generateFkName }) }

/-- The `ConceptualEntity` built from one (non-junction) table by
`_create_conceptual_entities`; `s` is the fully annotated schema, scanned
for the subclasses of a superclass table. -/
def entityOfTable (s : DatabaseSchema) (t : Table) : ConceptualEntity :=
  let entity_type := if t.is_weak_entity then EntityType.WEAK else EntityType.STRONG
  let fk_columns := (t.foreign_keys.filter (fun fk => !fk.is_inheritance)).map
    (fun fk => fk.column)
  let attributes := (t.columns.filter (fun c => !fk_columns.contains c.name)).map
    (fun c => c.name)
  let key_attributes := match t.primary_key with
    | some pk => pk.columns
    | none => []
  let subclasses :=
    if t.is_superclass then
      (s.tables.filter (fun ot => ot.is_subclass && ot.superclass_table == some t.name)).map
        (fun ot => ot.name)
    else []
  { name := t.name, entity_type, source_table := t.name, attributes, key_attributes,
    superclass := if t.is_subclass then t.superclass_table else none,
    subclasses,
    owner_entity := if t.is_weak_entity then t.owner_table else none }

/-- `SemanticEnricher._create_conceptual_entities` (pass 5): junction
tables are skipped; `add_entity` assigns into the name-keyed dict. -/
def create_conceptual_entities (s : DatabaseSchema) : List ConceptualEntity :=
  (s.tables.filter (fun t => !t.is_junction_table)).foldl
    (fun es t => addEntityList es (entityOfTable s t)) []

/-- `SemanticEnricher._parse_cardinality`. -/
def parse_cardinality (cardinality_str : String) : RelationshipCardinality :=
  if cardinality_str == "1:1" then .ONE_TO_ONE
  else if cardinality_str == "1:N" then .ONE_TO_MANY
  else if cardinality_str == "N:1" then .MANY_TO_ONE
  else if cardinality_str == "N:M" then .MANY_TO_MANY
  else .MANY_TO_ONE

/-- The `ConceptualRelationship` built from one foreign key of a
non-junction table by `_create_conceptual_relationships`. -/
def relationshipOfFk (t : Table) (fk : ForeignKey) : ConceptualRelationship :=
  let semantics :=
    if fk.is_inheritance then RelationshipSemantics.INHERITANCE
    else if fk.is_aggregation || fk.is_weak_entity then
      (match fk.on_delete with
       | some d =>
         if pyIn "CASCADE" (pyUpper d) then RelationshipSemantics.COMPOSITION
         else RelationshipSemantics.AGGREGATION
       | none => RelationshipSemantics.AGGREGATION)
    else RelationshipSemantics.ASSOCIATION
  let cardinality := parse_cardinality (pyOrElse fk.cardinality "N:1")
  let is_mandatory := match t.get_column fk.column with
    | some c => !c.is_nullable
    | none => false
  { name := pyOrElse fk.relationship_name ("REL_" ++ t.name ++ "_" ++ fk.referenced_table),
    source_entity := t.name, target_entity := fk.referenced_table,
    cardinality, semantics, source_foreign_key := some fk.name,
    is_mandatory_source := is_mandatory, is_mandatory_target := false }

/-- The junction-table name mangling of `_create_conceptual_relationships`:
`junction_table.name.replace('_', ' ').title().replace(' ', '_')`, then
upper-cased for the relationship name. -/
def junctionCleanName (n : String) : String :=
  pyReplace (pyTitle (pyReplace n "_" " ")) " " "_"

/-- The `N:M` `ConceptualRelationship` synthesized from a junction table
(`fk1`, `fk2` are `foreign_keys[0]` and `foreign_keys[1]`). -/
def junctionRelationship (t : Table) (fk1 fk2 : ForeignKey) : ConceptualRelationship :=
  let fk_columns := t.foreign_keys.map (fun fk => fk.column)
  let rel_attributes := (t.columns.filter (fun c => !fk_columns.contains c.name)).map
    (fun c => c.name)
  { name := pyUpper (junctionCleanName t.name),
    source_entity := fk1.referenced_table, target_entity := fk2.referenced_table,
    cardinality := RelationshipCardinality.MANY_TO_MANY,
    semantics := RelationshipSemantics.ASSOCIATION,
    source_junction_table := some t.name, attributes := rel_attributes }

/-- `SemanticEnricher._create_conceptual_relationships` (pass 6): one
relationship per foreign key of each non-junction table, then one `N:M`
relationship per junction table with at least two foreign keys (junction
tables always have exactly two). -/
def create_conceptual_relationships (s : DatabaseSchema) : List ConceptualRelationship :=
  let fkRels := (s.tables.filter (fun t => !t.is_junction_table)).flatMap
    (fun t => t.foreign_keys.map (relationshipOfFk t))
  let junctionRels := s.get_junction_tables.filterMap (fun t =>
    match t.foreign_keys with
    | fk1 :: fk2 :: _ => some (junctionRelationship t fk1 fk2)
    | _ => none)
  fkRels ++ junctionRels

/-- Passes 1–4 of `SemanticEnricher.enrich`: the annotated schema together
with the `inheritance_hierarchies` and `weak_entity_groups` accumulated on
the conceptual model. -/
def enrichSchema (s : DatabaseSchema) : DatabaseSchema × List (List String) × WeakGroups :=
  let p1 := detect_inheritance_hierarchies s
  let p2 := detect_weak_entities_and_aggregation p1.1
  let s3 := infer_relationship_cardinality p2.1
  let s4 := generate_relationship_names s3
  (s4, p1.2, p2.2)

/-- `SemanticEnricher.enrich`: run the six passes and assemble the
conceptual model (whose name fields are set in `SemanticEnricher.__init__`). -/
def enrich (s : DatabaseSchema) : ConceptualModel :=
  let r := enrichSchema s
  { name := s.database_name ++ "_conceptual",
    source_schema_name := s.database_name,
    entities := create_conceptual_entities r.1,
    relationships := create_conceptual_relationships r.1,
    inheritance_hierarchies := r.2.1,
    weak_entity_groups := r.2.2 }

/-! ## Graph Transformer (`src/transformers/graph_transformer.py`) -/

/-- Python runtime errors raised by the transformer. -/
inductive PyError where
  | typeError (msg : String)
  | valueError (msg : String)
  | attributeError (msg : String)
deriving DecidableEq, Repr

/-- A Python runtime value as it appears in a row dictionary. -/
inductive PyVal where
  | vNone
  | vBool (b : Bool)
  | vInt (n : Int)
  | vStr (s : String)
  | vList (items : List PyVal)
  | vDict (items : List (String × PyVal))

/-- `GraphTransformer._get_property_type`: `convert_sql_type_to_graph_type`
composed with the `type_mapping` dict (`.get(graph_type, PropertyType.STRING)`). -/
def getPropertyType (sql_type : String) : PropertyType :=
  let graph_type := convert_sql_type_to_graph_type sql_type
  if graph_type == "STRING" then PropertyType.STRING
  else if graph_type == "INTEGER" then PropertyType.INTEGER
  else if graph_type == "FLOAT" then PropertyType.FLOAT
  else if graph_type == "BOOLEAN" then PropertyType.BOOLEAN
  else if graph_type == "DATE" then PropertyType.DATE
  else if graph_type == "DATETIME" then PropertyType.DATETIME
  else if graph_type == "MAP" then PropertyType.MAP
  else PropertyType.STRING

/-- The initial `GraphModel` built in `GraphTransformer.__init__`. -/
def initGraphModel (db_schema : Option DatabaseSchema) (cm : Option ConceptualModel) :
    GraphModel :=
  let schema_name :=
    match cm with
    | some c => c.source_schema_name
    | none =>
      match db_schema with
      | some s => s.database_name
      | none => "unknown"
  { name := schema_name ++ "_graph", source_schema_name := some schema_name }

/-- `GraphTransformer._conceptual_entity_to_node`.  When a db schema is
present and some attribute resolves to a column of the source table, the
loop body executes
`Property(name=..., property_type=..., is_required=..., source_column=...)`;
the `Property` dataclass declares no `property_type`/`source_column`
fields, so that constructor call raises `TypeError`. -/
def conceptual_entity_to_node (db_schema : Option DatabaseSchema)
    (entity : ConceptualEntity) : Except PyError NodeLabel :=
  let node_label : NodeLabel :=
    { name := sanitize_label entity.name, source_table := some entity.source_table }
  match db_schema with
  | none => .ok node_label
  | some s =>
    match s.get_table entity.source_table with
    | none => .ok node_label
    | some t =>
      if entity.attributes.any (fun a => (t.get_column a).isSome) then
        .error (.typeError "Property init got an unexpected keyword argument property_type")
      else
        match entity.key_attributes with
        | [] => .ok node_label
        | k :: _ => .ok { node_label with primary_key := some (sanitize_property_name k) }

/-- `GraphTransformer._conceptual_relationship_to_edge`.  Its first
statement executes
`RelationshipType(name=..., from_node=..., to_node=..., cardinality=..., semantics=...)`;
the `RelationshipType` dataclass declares `from_label`/`to_label` and no
`cardinality`/`semantics` fields, so the call always raises `TypeError`
before anything else happens. -/
def conceptual_relationship_to_edge (relationship : ConceptualRelationship) :
    Except PyError RelationshipType :=
  .error (.typeError "RelationshipType init got an unexpected keyword argument from_node")

/-- `GraphTransformer._transform_from_conceptual`: node labels from the
entities, then relationship types from the relationships (the Python
`if rel_type:` test is always true for a dataclass instance). -/
def transform_from_conceptual (db_schema : Option DatabaseSchema)
    (cm : ConceptualModel) (g0 : GraphModel) : Except PyError GraphModel := do
  let g ← cm.entities.foldlM (fun (g : GraphModel) e => do
      let nl ← conceptual_entity_to_node db_schema e
      pure (g.add_node_label nl)) g0
  let g ← cm.relationships.foldlM (fun (g : GraphModel) r => do
      let rt ← conceptual_relationship_to_edge r
      pure (g.add_relationship_type rt)) g
  pure g

/-- `GraphTransformer._table_to_node_label` (fallback path).  The column
loop appends one property per non-foreign-key column; each primary-key
member column overwrites `primary_key` (the last one wins).  The index
loop then collects sanitized index columns without duplicates. -/
def table_to_node_label (t : Table) : NodeLabel :=
  let r := t.columns.foldl (fun (acc : List Property × Option String) column =>
    if t.foreign_keys.any (fun fk => fk.column == column.name) then acc
    else
      let prop_name := sanitize_property_name column.name
      let inPk := match t.primary_key with
        | some pk => pk.columns.contains column.name
        | none => false
      let prop : Property :=
        { name := prop_name, type := getPropertyType column.data_type,
          is_required := !column.is_nullable, is_indexed := inPk,
          original_column := some column.name }
      (acc.1 ++ [prop], if inPk then some prop_name else acc.2)) ([], none)
  let idxs := t.indexes.foldl (fun acc idx =>
    idx.columns.foldl (fun (acc : List String) col =>
      let p := sanitize_property_name col
      if acc.contains p then acc else acc ++ [p]) acc) []
  { name := sanitize_label t.name, properties := r.1, source_table := some t.name,
    primary_key := r.2, indexes := idxs }

/-- `GraphTransformer._foreign_key_to_relationship` (fallback path; the
function is typed `Optional` in Python but never returns `None`). -/
def foreign_key_to_relationship (t : Table) (fk : ForeignKey) : RelationshipType :=
  { name := create_relationship_type_name t.name fk.referenced_table,
    from_label := sanitize_label t.name,
    to_label := sanitize_label fk.referenced_table,
    source_foreign_key := some fk.name }

/-- `GraphTransformer._junction_table_to_relationship` (fallback path):
`None` unless the table has exactly two foreign keys; non-foreign-key
columns become relationship properties. -/
def junction_table_to_relationship (t : Table) : Option RelationshipType :=
  match t.foreign_keys with
  | [fk1, fk2] =>
    let props := (t.columns.filter
        (fun c => !(c.name == fk1.column || c.name == fk2.column))).map
      (fun c => ({ name := sanitize_property_name c.name,
                   type := getPropertyType c.data_type,
                   is_required := !c.is_nullable,
                   original_column := some c.name } : Property))
    some { name := pyUpper (sanitize_label t.name),
           from_label := sanitize_label fk1.referenced_table,
           to_label := sanitize_label fk2.referenced_table,
           properties := props, source_junction_table := some t.name }
  | _ => none

/-- `GraphTransformer._transform_from_schema` (fallback path, S→T). -/
def transform_from_schema (s : DatabaseSchema) (g0 : GraphModel) : GraphModel :=
  let g := s.get_entity_tables.foldl
    (fun (g : GraphModel) t => g.add_node_label (table_to_node_label t)) g0
  let g := s.get_entity_tables.foldl
    (fun (g : GraphModel) t => t.foreign_keys.foldl
      (fun (g : GraphModel) fk => g.add_relationship_type (foreign_key_to_relationship t fk)) g) g
  s.get_junction_tables.foldl
    (fun (g : GraphModel) t =>
      match junction_table_to_relationship t with
      | some rt => g.add_relationship_type rt
      | none => g) g

/-- `GraphTransformer.transform`: conceptual path if a conceptual model
was supplied, else the schema fallback, else `ValueError`. -/
def transform (db_schema : Option DatabaseSchema) (cm : Option ConceptualModel) :
    Except PyError GraphModel :=
  let g0 := initGraphModel db_schema cm
  match cm with
  | some c => transform_from_conceptual db_schema c g0
  | none =>
    match db_schema with
    | some s => .ok (transform_from_schema s g0)
    | none => .error (.valueError "Either conceptual model or db schema must be provided")

/-- Python `str(value)` as used by `_convert_value` on date/time columns:
the identity on strings, an abstract external `repr` otherwise. -/
def pyStrOf (reprFn : PyVal → String) : PyVal → String
  | .vStr s => s
  | v => reprFn v

/-- `GraphTransformer._convert_value`.  `json.loads` is abstracted as
`jsonLoads`; a `none` result models a `json.JSONDecodeError`, in which
case the bare `except` returns the raw string. -/
def convert_value (jsonLoads : String → Option PyVal) (reprFn : PyVal → String)
    (value : PyVal) (sql_type : String) : PyVal :=
  match value with
  | .vNone => .vNone
  | v =>
    if pyIn "date" (pyLower sql_type) || pyIn "time" (pyLower sql_type) then
      .vStr (pyStrOf reprFn v)
    else if pyIn "json" (pyLower sql_type) then
      match v with
      | .vStr s =>
        match jsonLoads s with
        | some parsed => parsed
        | none => .vStr s
      | _ => v
    else v

/-- `GraphTransformer.transform_row_to_node`: look up the node label
(raising `ValueError` when absent), then build the property dict from the
owning table's non-foreign-key columns (`row_data.get` yields `None` for
absent columns; accessing `.columns` on a `None` schema or table would
raise `AttributeError`). -/
def transform_row_to_node (db_schema : Option DatabaseSchema) (g : GraphModel)
    (jsonLoads : String → Option PyVal) (reprFn : PyVal → String)
    (table_name : String) (row_data : List (String × PyVal)) :
    Except PyError (List (String × PyVal)) :=
  match g.get_node_label (sanitize_label table_name) with
  | none => .error (.valueError ("No node label found for table: " ++ table_name))
  | some _ =>
    match db_schema with
    | none => .error (.attributeError "NoneType object has no attribute get_table")
    | some s =>
      match s.get_table table_name with
      | none => .error (.attributeError "NoneType object has no attribute columns")
      | some t =>
        .ok (t.columns.foldl (fun props column =>
          if t.foreign_keys.any (fun fk => fk.column == column.name) then props
          else
            let value := match assocGet row_data column.name with
              | some v => v
              | none => PyVal.vNone
            assocSet props (sanitize_property_name column.name)
              (convert_value jsonLoads reprFn value column.data_type)) [])

/-! ## Concrete schemas used by the witnesses and counterexamples -/

/-- The `students` table of the end-to-end scenario. -/
def studentsTable : Table :=
  { name := "students",
    columns := [{ name := "id", data_type := "int", is_nullable := false },
                { name := "name", data_type := "varchar" }],
    primary_key := some { name := "pk_students", columns := ["id"] } }

/-- The `departments` table of the end-to-end scenario. -/
def departmentsTable : Table :=
  { name := "departments",
    columns := [{ name := "id", data_type := "int", is_nullable := false },
                { name := "name", data_type := "varchar" }],
    primary_key := some { name := "pk_departments", columns := ["id"] } }

/-- The `courses.department_id → departments.id` foreign key of the
end-to-end scenario: non-nullable column, no delete rule. -/
def coursesFk : ForeignKey :=
  { name := "fk_courses_department", column := "department_id",
    referenced_table := "departments", referenced_column := "id" }

/-- The `courses` table of the end-to-end scenario. -/
def coursesTable : Table :=
  { name := "courses",
    columns := [{ name := "id", data_type := "int", is_nullable := false },
                { name := "title", data_type := "varchar" },
                { name := "department_id", data_type := "int", is_nullable := false }],
    primary_key := some { name := "pk_courses", columns := ["id"] },
    foreign_keys := [coursesFk] }

/-- The `student_id → students.id` foreign key of the `enrollments`
junction table. -/
def enrollStudentFk : ForeignKey :=
  { name := "fk_enrollments_student", column := "student_id",
    referenced_table := "students", referenced_column := "id" }

/-- The `enrollments` junction table of the end-to-end scenario: primary
key `(student_id, course_id)`, the two columns being foreign keys to
`students` and `courses`. -/
def enrollmentsTable : Table :=
  { name := "enrollments",
    columns := [{ name := "student_id", data_type := "int", is_nullable := false },
                { name := "course_id", data_type := "int", is_nullable := false },
                { name := "enrollment_date", data_type := "date" },
                { name := "grade", data_type := "varchar" }],
    primary_key := some { name := "pk_enrollments", columns := ["student_id", "course_id"] },
    foreign_keys := [enrollStudentFk,
                     { name := "fk_enrollments_course", column := "course_id",
                       referenced_table := "courses", referenced_column := "id" }] }

/-- The end-to-end scenario schema of the specification:
`students`, `courses`, `departments`, `enrollments`. -/
def scenarioSchema : DatabaseSchema :=
  { database_name := "university", database_type := "postgresql",
    tables := [studentsTable, coursesTable, departmentsTable, enrollmentsTable] }

/-- A junction table whose name contains a space: primary key
`(order_id, product_id)` covered by the two foreign-key columns. -/
def orderItemsTable : Table :=
  { name := "order items",
    columns := [{ name := "order_id", data_type := "int", is_nullable := false },
                { name := "product_id", data_type := "int", is_nullable := false },
                { name := "quantity", data_type := "int" }],
    primary_key := some { name := "pk_order_items", columns := ["order_id", "product_id"] },
    foreign_keys := [{ name := "fk_oi_order", column := "order_id",
                       referenced_table := "orders", referenced_column := "id" },
                     { name := "fk_oi_product", column := "product_id",
                       referenced_table := "products", referenced_column := "id" }] }

/-- A one-table schema containing only `orderItemsTable`. -/
def spaceSchema : DatabaseSchema :=
  { database_name := "shop", database_type := "mysql", tables := [orderItemsTable] }

/-- A table with two identifying foreign keys (both local columns are part
of the primary key), neither of them inheritance-flagged. -/
def multiWeakTable : Table :=
  { name := "order_items",
    columns := [{ name := "order_id", data_type := "int", is_nullable := false },
                { name := "product_id", data_type := "int", is_nullable := false },
                { name := "quantity", data_type := "int" }],
    primary_key := some { name := "pk_order_items", columns := ["order_id", "product_id"] },
    foreign_keys := [{ name := "fk_oi_order", column := "order_id",
                       referenced_table := "orders", referenced_column := "id" },
                     { name := "fk_oi_product", column := "product_id",
                       referenced_table := "products", referenced_column := "id" }] }

/-- A one-table schema containing only `multiWeakTable`. -/
def multiWeakSchema : DatabaseSchema :=
  { database_name := "shop", database_type := "mysql", tables := [multiWeakTable] }

/-- A foreign key with local column `ref_id` referencing a table named
`tbl_orders`. -/
def refsFk : ForeignKey :=
  { name := "fk_refs", column := "ref_id",
    referenced_table := "tbl_orders", referenced_column := "id" }

/-- A table whose single foreign key is `refsFk`. -/
def refsTable : Table :=
  { name := "refs",
    columns := [{ name := "id", data_type := "int", is_nullable := false },
                { name := "ref_id", data_type := "int" }],
    primary_key := some { name := "pk_refs", columns := ["id"] },
    foreign_keys := [refsFk] }

/-- A one-table schema containing only `refsTable`. -/
def refsSchema : DatabaseSchema :=
  { database_name := "library", database_type := "mysql", tables := [refsTable] }

/-- A table with two foreign-key-free columns `a_b` and `a__b`, whose
sanitized property names coincide (`aB`). -/
def collidingTable : Table :=
  { name := "t",
    columns := [{ name := "a_b", data_type := "int" },
                { name := "a__b", data_type := "int" }] }

/-- A one-table schema containing only `collidingTable`. -/
def collidingSchema : DatabaseSchema :=
  { database_name := "d", database_type := "mysql", tables := [collidingTable] }

/-- A graph model holding the node label for `collidingTable`
(`sanitize_label "t" = "T"`). -/
def collidingGraph : GraphModel :=
  { name := "d_graph", node_labels := [("T", { name := "T" })] }

/-- A conceptual model with no entities and exactly one relationship. -/
def singleRelConceptualModel : ConceptualModel :=
  { name := "blog_conceptual", source_schema_name := "blog",
    relationships := [{ name := "HAS_USERS", source_entity := "posts",
                        target_entity := "users",
                        cardinality := RelationshipCardinality.MANY_TO_ONE,
                        semantics := RelationshipSemantics.ASSOCIATION,
                        source_foreign_key := some "fk_posts_user" }] }

/-! ## Skeletons: the fields the enrichment passes never write

The enrichment passes write only the annotation fields (`cardinality`,
`relationship_name`, `is_inheritance`, `is_aggregation`, `is_weak_entity`
on foreign keys; `is_subclass`, `is_superclass`, `superclass_table`,
`is_weak_entity`, `owner_table` on tables).  The *skeleton* collects the
remaining, never-written fields; the passes preserve it. -/

/-- The never-written fields of a `ForeignKey`. -/
structure FkSkel where
  name : String
  column : String
  referenced_table : String
  referenced_column : String
  on_delete : Option String
  on_update : Option String
deriving DecidableEq, Repr

/-- Skeleton of a foreign key. -/
def ForeignKey.skel (fk : ForeignKey) : FkSkel :=
  { name := fk.name, column := fk.column, referenced_table := fk.referenced_table,
    referenced_column := fk.referenced_column, on_delete := fk.on_delete,
    on_update := fk.on_update }

/-- The never-written fields of a `Table`. -/
structure TableSkel where
  name : String
  columns : List Column
  primary_key : Option PrimaryKey
  indexes : List Index
  fks : List FkSkel
deriving DecidableEq, Repr

/-- Skeleton of a table. -/
def Table.skel (t : Table) : TableSkel :=
  { name := t.name, columns := t.columns, primary_key := t.primary_key,
    indexes := t.indexes, fks := t.foreign_keys.map ForeignKey.skel }

/-- Skeleton of a schema: the skeletons of its tables, in order. -/
def DatabaseSchema.skel (s : DatabaseSchema) : List TableSkel :=
  s.tables.map Table.skel

/-! ## Derived forms used to state the claims -/

/-- The per-foreign-key update of pass 2 (the foreign-key component of
`detectWeakFkStep`). -/
def weakFkUpdate (t : Table) (fk : ForeignKey) : ForeignKey :=
  if fk.is_inheritance then fk
  else if fkIdentifying t fk then { fk with is_weak_entity := true, is_aggregation := true }
  else if fkCascadeDelete fk || fkNotNullColumn t fk then { fk with is_aggregation := true }
  else fk

/-- A pass-2 foreign key that triggers the weak-entity branch:
non-inheritance and identifying. -/
def weakMatch (t : Table) (fk : ForeignKey) : Bool :=
  !fk.is_inheritance && fkIdentifying t fk

/-- The table-part of one pass-2 iteration (`detectWeakTable` restricted
to its table output, which does not depend on the groups accumulator):
every foreign key is updated, the weak flag is set if any foreign key
matches, and each matching foreign key overwrites `owner_table`. -/
def weakTableFn (t : Table) : Table :=
  if t.is_subclass then t
  else if t.foreign_keys.isEmpty then t
  else
    { t with
      foreign_keys := t.foreign_keys.map (weakFkUpdate t),
      is_weak_entity := t.is_weak_entity || t.foreign_keys.any (weakMatch t),
      owner_table := (t.foreign_keys.filter (weakMatch t)).foldl
        (fun _ fk => some fk.referenced_table) t.owner_table }

/-- The groups-part of one pass-2 iteration: one `weak_entity_groups`
entry appended per matching foreign key. -/
def weakGroupsFn (t : Table) (gs : WeakGroups) : WeakGroups :=
  if t.is_subclass then gs
  else if t.foreign_keys.isEmpty then gs
  else (t.foreign_keys.filter (weakMatch t)).foldl
    (fun gs0 fk => addWeakGroup gs0 fk.referenced_table t.name) gs

/-- The number of times `m` occurs as a dependent across all
`weak_entity_groups` entries. -/
def flattenCount (gs : WeakGroups) (m : String) : Nat :=
  ((gs.map Prod.snd).flatten).count m

/-- The hypothesis of the inheritance claim: the foreign key's local
column is part of the table's primary key, the referenced table is present
in the schema and has a primary key, and the referenced column lies in it. -/
def fkInheritanceQualifies (s : DatabaseSchema) (t : Table) (fk : ForeignKey) : Bool :=
  match t.primary_key with
  | some pk =>
    pk.columns.contains fk.column &&
      (match s.get_table fk.referenced_table with
       | some rt =>
         match rt.primary_key with
         | some rpk => rpk.columns.contains fk.referenced_column
         | none => false
       | none => false)
  | none => false

/-- The cardinality claim's `1:1` condition: the foreign-key column is
covered by a single-column unique index of its table, or is the sole
column of a single-column primary key. -/
def specOneToOne (t : Table) (fk : ForeignKey) : Prop :=
  (∃ idx ∈ t.indexes, idx.is_unique = true ∧ idx.columns = [fk.column]) ∨
  (∃ pk, t.primary_key = some pk ∧ pk.columns = [fk.column])

/-- The semantics claim's formula: `INHERITANCE` if flagged, else
`COMPOSITION` if flagged aggregation/weak and the delete rule contains
`CASCADE`, else `AGGREGATION` if flagged aggregation/weak, else
`ASSOCIATION`. -/
def specSemantics (fk : ForeignKey) : RelationshipSemantics :=
  let cascade := match fk.on_delete with
    | some d => pyIn "CASCADE" (pyUpper d)
    | none => false
  if fk.is_inheritance then RelationshipSemantics.INHERITANCE
  else if (fk.is_aggregation || fk.is_weak_entity) && cascade then
    RelationshipSemantics.COMPOSITION
  else if fk.is_aggregation || fk.is_weak_entity then RelationshipSemantics.AGGREGATION
  else RelationshipSemantics.ASSOCIATION

/-- The naming claim's formula, with the keyword search phrased as a
first-match `List.find?` over the ordered keyword list. -/
def specFkName (fk : ForeignKey) : String :=
  let hint := pyReplace (pyReplace (pyLower fk.column) "_id" "") "id" ""
  let refLower := pyLower fk.referenced_table
  match relationshipVerbs.find? (fun kv => pyIn kv.1 hint || pyIn kv.1 refLower) with
  | some kv => kv.2
  | none =>
    let tbl := pyUpper (pyReplace (pyReplace fk.referenced_table "tbl" "") "_" "")
    if fk.is_aggregation then "PART_OF_" ++ tbl else "HAS_" ++ tbl

/-- Replace spaces by underscores (the effect of the junction-name
mangling before upper-casing). -/
def spaceToUnderscore (s : String) : String :=
  String.mk (s.data.map (fun c => if c == ' ' then '_' else c))

/-- The non-foreign-key columns of a table, in column order. -/
def nonFkColumns (t : Table) : List Column :=
  t.columns.filter (fun c => !(t.foreign_keys.any (fun fk => fk.column == c.name)))

/-- The key triple of a relationship type as named by the invariant:
`(from-label, type-name, to-label)`. -/
def tripleOf (r : RelationshipType) : String × String × String :=
  (r.from_label, r.name, r.to_label)

/-- A sequence of `add_relationship_type` calls. -/
def addRelationshipTypes (g : GraphModel) (rs : List RelationshipType) : GraphModel :=
  rs.foldl GraphModel.add_relationship_type g

/-- The inheritance claim's chain property: some chain of the hierarchy
list holds `a` at a position strictly before a position holding `b`. -/
def ChainAfter (hs : List (List String)) (a b : String) : Prop :=
  ∃ ch ∈ hs, ∃ p q : Nat, p < q ∧ ch[p]? = some a ∧ ch[q]? = some b

/-! ## Association-list lemmas (dict assignment and lookup) -/

theorem find?_map_overwrite {α : Type} {l : List (String × α)} {k : String} (v : α)
    (h : l.any (fun kv => kv.1 == k) = true) :
    (l.map (fun kv => if kv.1 == k then (k, v) else kv)).find? (fun kv => kv.1 == k)
      = some (k, v) := by
  induction l with
  | nil => simp at h
  | cons hd tl ih =>
    by_cases hk : (hd.1 == k) = true
    · rw [List.map_cons, if_pos hk, List.find?_cons_of_pos _ (by simp)]
    · have h2 : tl.any (fun kv => kv.1 == k) = true := by
        simpa [hk] using h
      rw [List.map_cons, if_neg hk,
        List.find?_cons_of_neg (p := fun kv : String × α => kv.1 == k) _ hk]
      exact ih h2

theorem assocGet_assocSet_self {α : Type} (l : List (String × α)) (k : String) (v : α) :
    assocGet (assocSet l k v) k = some v := by
  unfold assocSet assocGet
  by_cases h : l.any (fun kv => kv.1 == k) = true
  · rw [if_pos h, find?_map_overwrite v h]
  · rw [if_neg h, List.find?_append]
    have hnone : l.find? (fun kv => kv.1 == k) = none := by
      rw [List.find?_eq_none]
      intro x hx hc
      exact absurd (List.any_eq_true.mpr ⟨x, hx, hc⟩) h
    simp [hnone, List.find?]

theorem length_assocSet_of_any {α : Type} {l : List (String × α)} {k : String} (v : α)
    (h : l.any (fun kv => kv.1 == k) = true) :
    (assocSet l k v).length = l.length := by
  simp [assocSet, h]

theorem mem_assocSet {α : Type} {l : List (String × α)} {k : String} {v : α} {kv : String × α}
    (h : kv ∈ assocSet l k v) :
    kv = (k, v) ∨ (kv ∈ l ∧ kv.1 ≠ k) := by
  unfold assocSet at h
  by_cases hc : l.any (fun kv => kv.1 == k) = true
  · rw [if_pos hc] at h
    rw [List.mem_map] at h
    obtain ⟨kv0, hmem, heq⟩ := h
    by_cases hk : (kv0.1 == k) = true
    · left
      rw [← heq, if_pos hk]
    · right
      rw [← heq, if_neg hk]
      exact ⟨hmem, by simpa using hk⟩
  · rw [if_neg hc] at h
    rcases List.mem_append.mp h with h2 | h2
    · right
      refine ⟨h2, ?_⟩
      intro he
      exact absurd (List.any_eq_true.mpr ⟨kv, h2, by simpa using he⟩) hc
    · left
      simpa using h2

theorem keys_assocSet_of_any {α : Type} {l : List (String × α)} {k : String} (v : α)
    (h : l.any (fun kv => kv.1 == k) = true) :
    (assocSet l k v).map Prod.fst = l.map Prod.fst := by
  unfold assocSet
  rw [if_pos h, List.map_map]
  apply List.map_congr_left
  intro kv _
  by_cases hk : (kv.1 == k) = true
  · simp only [Function.comp_apply, if_pos hk]
    exact (by simpa using hk : kv.1 = k).symm
  · simp only [Function.comp_apply, if_neg hk]

theorem keys_assocSet_of_not_any {α : Type} {l : List (String × α)} {k : String} (v : α)
    (h : ¬ l.any (fun kv => kv.1 == k) = true) :
    (assocSet l k v).map Prod.fst = l.map Prod.fst ++ [k] := by
  unfold assocSet
  rw [if_neg h]
  simp

/-! ## C9: relationship types are keyed by the (from, name, to) triple -/

theorem relTypeKey_eq_of_triple {a b : RelationshipType} (h : tripleOf a = tripleOf b) :
    relTypeKey a = relTypeKey b := by
  unfold tripleOf at h
  obtain ⟨h1, h2, h3⟩ : a.from_label = b.from_label ∧ a.name = b.name ∧ a.to_label = b.to_label := by
    simpa [Prod.ext_iff] using h
  simp [relTypeKey, h1, h2, h3]

theorem addRelationshipTypes_invariant (g0 : GraphModel) (rs : List RelationshipType)
    (h0 : g0.relationship_types = []) :
    ((addRelationshipTypes g0 rs).relationship_types.map Prod.fst).Nodup ∧
    (∀ kv ∈ (addRelationshipTypes g0 rs).relationship_types,
      kv.1 = relTypeKey kv.2 ∧
      ∃ l1 l2, rs = l1 ++ kv.2 :: l2 ∧ ∀ r2 ∈ l2, relTypeKey r2 ≠ kv.1) := by
  induction rs using List.reverseRecOn with
  | nil =>
    simp [addRelationshipTypes, h0]
  | append_singleton rs r ih =>
    have hstep : addRelationshipTypes g0 (rs ++ [r]) =
        (addRelationshipTypes g0 rs).add_relationship_type r := by
      simp [addRelationshipTypes, List.foldl_append]
    obtain ⟨ihnodup, ihmem⟩ := ih
    rw [hstep]
    constructor
    · show ((assocSet _ (relTypeKey r) r).map Prod.fst).Nodup
      by_cases hc : (addRelationshipTypes g0 rs).relationship_types.any
          (fun kv => kv.1 == relTypeKey r) = true
      · rw [keys_assocSet_of_any _ hc]
        exact ihnodup
      · rw [keys_assocSet_of_not_any _ hc]
        rw [List.nodup_append]
        refine ⟨ihnodup, List.nodup_singleton _, ?_⟩
        intro a ha
        simp only [List.mem_singleton]
        intro hak
        subst hak
        simp only [List.mem_map] at ha
        obtain ⟨kv, hkv, hfst⟩ := ha
        exact absurd (List.any_eq_true.mpr ⟨kv, hkv, by simpa using hfst⟩) hc
    · intro kv hkv
      have := mem_assocSet hkv
      rcases this with h | ⟨hmem, hne⟩
      · subst h
        refine ⟨rfl, rs, [], by simp, by simp⟩
      · obtain ⟨hkey, l1, l2, hdec, hlast⟩ := ihmem kv hmem
        refine ⟨hkey, l1, l2 ++ [r], by rw [hdec]; simp, ?_⟩
        intro r2 hr2
        rcases List.mem_append.mp hr2 with h | h
        · exact hlast r2 h
        · simp only [List.mem_singleton] at h
          subst h
          intro he
          exact hne (he ▸ rfl)

/-- C9: in the Graph Model, relationship types are keyed by the triple
(from-label, type-name, to-label).  After any sequence of
`add_relationship_type` calls starting from a model with no relationship
types: (1) the model holds at most one relationship type per triple;
(2) adding a relationship type whose triple equals that of an
already-stored one keeps the count unchanged and stores the new one under
the key (replace, not append); (3) every stored relationship type is the
last-added one with its triple. -/
theorem c9_relationship_type_keying (g0 : GraphModel) (rs : List RelationshipType)
    (h0 : g0.relationship_types = []) :
    (∀ kv1 ∈ (addRelationshipTypes g0 rs).relationship_types,
      ∀ kv2 ∈ (addRelationshipTypes g0 rs).relationship_types,
        tripleOf kv1.2 = tripleOf kv2.2 → kv1 = kv2) ∧
    (∀ r : RelationshipType,
      (∃ kv ∈ (addRelationshipTypes g0 rs).relationship_types, tripleOf kv.2 = tripleOf r) →
      ((addRelationshipTypes g0 rs).add_relationship_type r).relationship_types.length
          = (addRelationshipTypes g0 rs).relationship_types.length ∧
      assocGet ((addRelationshipTypes g0 rs).add_relationship_type r).relationship_types
          (relTypeKey r) = some r) ∧
    (∀ kv ∈ (addRelationshipTypes g0 rs).relationship_types,
      ∃ l1 l2, rs = l1 ++ kv.2 :: l2 ∧ ∀ r2 ∈ l2, tripleOf r2 ≠ tripleOf kv.2) := by
  obtain ⟨hnodup, hmem⟩ := addRelationshipTypes_invariant g0 rs h0
  refine ⟨?_, ?_, ?_⟩
  · intro kv1 h1 kv2 h2 htriple
    have hk1 := (hmem kv1 h1).1
    have hk2 := (hmem kv2 h2).1
    have hkeq : kv1.1 = kv2.1 := by
      rw [hk1, hk2]
      exact relTypeKey_eq_of_triple htriple
    exact List.inj_on_of_nodup_map hnodup h1 h2 hkeq
  · intro r ⟨kv, hkv, htriple⟩
    have hk := (hmem kv hkv).1
    have hc : (addRelationshipTypes g0 rs).relationship_types.any
        (fun p => p.1 == relTypeKey r) = true := by
      rw [List.any_eq_true]
      refine ⟨kv, hkv, ?_⟩
      have : kv.1 = relTypeKey r := by
        rw [hk]
        exact relTypeKey_eq_of_triple htriple
      simpa using this
    exact ⟨length_assocSet_of_any _ hc, assocGet_assocSet_self _ _ _⟩
  · intro kv hkv
    obtain ⟨hkey, l1, l2, hdec, hlast⟩ := hmem kv hkv
    refine ⟨l1, l2, hdec, ?_⟩
    intro r2 hr2 htr
    exact hlast r2 hr2 (hkey ▸ relTypeKey_eq_of_triple htr)

/-- Witness for `c9_relationship_type_keying`: adding a second
relationship type with the same triple keeps the count at one. -/
theorem c9_relationship_type_keying_witness :
    ((addRelationshipTypes { name := "g" }
        [{ name := "R", from_label := "A", to_label := "B" }]).add_relationship_type
      { name := "R", from_label := "A", to_label := "B", is_required := true }
      ).relationship_types.length
    = (addRelationshipTypes { name := "g" }
        [{ name := "R", from_label := "A", to_label := "B" }]).relationship_types.length :=
  ((c9_relationship_type_keying { name := "g" }
      [{ name := "R", from_label := "A", to_label := "B" }] rfl).2.1
    { name := "R", from_label := "A", to_label := "B", is_required := true }
    ⟨(("A_R_B", ({ name := "R", from_label := "A", to_label := "B" } : RelationshipType))
        : String × RelationshipType),
      by
        rw [show (addRelationshipTypes { name := "g" }
            [{ name := "R", from_label := "A", to_label := "B" }]).relationship_types
          = [("A_R_B", ({ name := "R", from_label := "A", to_label := "B" }
              : RelationshipType))] from rfl]
        exact List.mem_singleton.mpr rfl,
      rfl⟩).1

/-! ## C5: cardinality inference -/

theorem contains_and_length_one_iff {l : List String} {c : String} :
    (l.contains c && l.length == 1) = true ↔ l = [c] := by
  cases l with
  | nil => simp
  | cons a t =>
    cases t with
    | nil =>
      constructor
      · intro h
        simp only [Bool.and_eq_true] at h
        have h2 : c = a ∨ List.contains [] c = true := by
          simpa [List.contains_cons] using h.1
        rcases h2 with h2 | h2
        · rw [h2]
        · simp at h2
      · intro h
        injection h with h1 _
        simp [h1]
    | cons b t2 => simp

theorem fkSingleUniqueIndex_iff (t : Table) (fk : ForeignKey) :
    fkSingleUniqueIndex t fk = true ↔
      ∃ idx ∈ t.indexes, idx.is_unique = true ∧ idx.columns = [fk.column] := by
  unfold fkSingleUniqueIndex
  rw [List.any_eq_true]
  constructor
  · intro h
    obtain ⟨idx, hmem, hidx⟩ := h
    simp only [Bool.and_eq_true] at hidx
    refine ⟨idx, hmem, hidx.1.1, ?_⟩
    apply contains_and_length_one_iff.mp
    simp only [Bool.and_eq_true]
    exact ⟨hidx.1.2, hidx.2⟩
  · intro h
    obtain ⟨idx, hmem, huniq, hcols⟩ := h
    refine ⟨idx, hmem, ?_⟩
    have h2 := contains_and_length_one_iff.mpr hcols
    simp only [Bool.and_eq_true] at h2 ⊢
    exact ⟨⟨huniq, h2.1⟩, h2.2⟩

theorem fkIsWholePk_iff (t : Table) (fk : ForeignKey) :
    fkIsWholePk t fk = true ↔ ∃ pk, t.primary_key = some pk ∧ pk.columns = [fk.column] := by
  unfold fkIsWholePk
  constructor
  · intro h
    split at h
    · rename_i pk hpk
      split at h
      · rename_i c hc
        refine ⟨pk, hpk, ?_⟩
        rw [hc]
        have : fk.column = c := by simpa using h
        rw [this]
      · simp at h
    · simp at h
  · intro h
    obtain ⟨pk, hpk, hcols⟩ := h
    rw [hpk]
    show (match pk.columns with
      | [c] => fk.column == c
      | _ => false) = true
    rw [hcols]
    simp

theorem specOneToOne_bool_iff (t : Table) (fk : ForeignKey) :
    (fkSingleUniqueIndex t fk || fkIsWholePk t fk) = true ↔ specOneToOne t fk := by
  rw [Bool.or_eq_true, fkSingleUniqueIndex_iff, fkIsWholePk_iff]
  exact Iff.rfl

/-- C5: for every foreign key whose cardinality field is not already set
(Python-falsy), the cardinality pass assigns `1:1` exactly when the
foreign-key column is covered by a single-column unique index of its
table or is the sole column of a single-column primary key, and assigns
`N:1` in every other case; the pass is a pure function of the schema, so
identical input yields identical cardinality strings. -/
theorem c5_cardinality_inference (s : DatabaseSchema) (i j : Nat) (t : Table)
    (fk : ForeignKey) (ht : s.tables[i]? = some t)
    (hfk : t.foreign_keys[j]? = some fk) (hunset : pyTruthy fk.cardinality = false) :
    ∃ t2, (infer_relationship_cardinality s).tables[i]? = some t2 ∧
      (specOneToOne t fk →
        t2.foreign_keys[j]? = some { fk with cardinality := some "1:1" }) ∧
      (¬ specOneToOne t fk →
        t2.foreign_keys[j]? = some { fk with cardinality := some "N:1" }) ∧
      (∀ s2, s2 = s → infer_relationship_cardinality s2 = infer_relationship_cardinality s) := by
  refine ⟨{ t with foreign_keys := t.foreign_keys.map (inferFkCardinality t) }, ?_, ?_, ?_, ?_⟩
  · show (s.tables.map _)[i]? = _
    rw [List.getElem?_map, ht]
    rfl
  · intro hspec
    rw [List.getElem?_map, hfk]
    have hcond := (specOneToOne_bool_iff t fk).mpr hspec
    show some (inferFkCardinality t fk) = _
    unfold inferFkCardinality
    rw [if_neg (by rw [hunset]; exact Bool.false_ne_true), if_pos hcond]
  · intro hspec
    rw [List.getElem?_map, hfk]
    have hcond : ¬ (fkSingleUniqueIndex t fk || fkIsWholePk t fk) = true := by
      intro hc
      exact hspec ((specOneToOne_bool_iff t fk).mp hc)
    show some (inferFkCardinality t fk) = _
    unfold inferFkCardinality
    rw [if_neg (by rw [hunset]; exact Bool.false_ne_true), if_neg hcond]
  · intro s2 h
    rw [h]

/-- Witness for `c5_cardinality_inference`: the single foreign key of
`refsTable` (no unique index, primary key `["id"]` not equal to the
foreign-key column) gets cardinality `N:1`. -/
theorem c5_cardinality_inference_witness :
    ∃ t2, (infer_relationship_cardinality refsSchema).tables[0]? = some t2 ∧
      (specOneToOne refsTable refsFk →
        t2.foreign_keys[0]? = some { refsFk with cardinality := some "1:1" }) ∧
      (¬ specOneToOne refsTable refsFk →
        t2.foreign_keys[0]? = some { refsFk with cardinality := some "N:1" }) ∧
      (∀ s2, s2 = refsSchema →
        infer_relationship_cardinality s2 = infer_relationship_cardinality refsSchema) :=
  c5_cardinality_inference refsSchema 0 0 refsTable refsFk rfl rfl rfl

/-! ## C6: relationship naming -/

theorem findVerb_eq_find? (a b : String) (l : List (String × String)) :
    findVerb a b l = (l.find? (fun kv => pyIn kv.1 a || pyIn kv.1 b)).map Prod.snd := by
  induction l with
  | nil => rfl
  | cons hd tl ih =>
    obtain ⟨key, verb⟩ := hd
    unfold findVerb
    by_cases h : (pyIn key a || pyIn key b) = true
    · rw [if_pos h,
        List.find?_cons_of_pos (p := fun kv : String × String => pyIn kv.1 a || pyIn kv.1 b) _ h]
      rfl
    · rw [if_neg h,
        List.find?_cons_of_neg (p := fun kv : String × String => pyIn kv.1 a || pyIn kv.1 b) _ h,
        ih]

theorem generateFkName_eq (fk : ForeignKey) (h : pyTruthy fk.relationship_name = false) :
    generateFkName fk = { fk with relationship_name := some (specFkName fk) } := by
  unfold generateFkName specFkName
  rw [if_neg (by rw [h]; exact Bool.false_ne_true)]
  simp only [findVerb_eq_find?]
  cases hfind : (relationshipVerbs.find? (fun kv =>
      pyIn kv.1 (pyReplace (pyReplace (pyLower fk.column) "_id" "") "id" "") ||
      pyIn kv.1 (pyLower fk.referenced_table))) with
  | none => simp [hfind]
  | some kv => simp [hfind]

/-- C6 (amended): for every foreign key without a Python-truthy
relationship name, the naming pass stores `specFkName fk`: the hint is the
lower-cased local column name with every occurrence of `_id` and then of
`id` removed (not just a stripped suffix); the hint and the lower-cased
referenced table name are matched against the ordered keyword list with
first match winning; with no match the name is `PART_OF_<TABLE>` when the
foreign key is flagged aggregation and `HAS_<TABLE>` otherwise, where
`<TABLE>` is the referenced table name with every occurrence of `tbl`
removed, underscores stripped, and upper-cased. -/
theorem c6_relationship_naming (s : DatabaseSchema) (i j : Nat) (t : Table)
    (fk : ForeignKey) (ht : s.tables[i]? = some t)
    (hfk : t.foreign_keys[j]? = some fk)
    (hunset : pyTruthy fk.relationship_name = false) :
    ∃ t2, (generate_relationship_names s).tables[i]? = some t2 ∧
      t2.foreign_keys[j]? = some { fk with relationship_name := some (specFkName fk) } := by
  refine ⟨{ t with foreign_keys := t.foreign_keys.map generateFkName }, ?_, ?_⟩
  · show (s.tables.map _)[i]? = _
    rw [List.getElem?_map, ht]
    rfl
  · rw [List.getElem?_map, hfk]
    show some (generateFkName fk) = _
    rw [generateFkName_eq fk hunset]

/-- Witness for `c6_relationship_naming` at `refsSchema`: the foreign key
`ref_id → tbl_orders` matches no keyword, is not flagged aggregation, and
is named `HAS_ORDERS` (its `tbl` prefix is removed). -/
theorem c6_relationship_naming_witness :
    (∃ t2, (generate_relationship_names refsSchema).tables[0]? = some t2 ∧
      t2.foreign_keys[0]? = some { refsFk with relationship_name := some (specFkName refsFk) }) ∧
    specFkName refsFk = "HAS_ORDERS" := by
  constructor
  · exact c6_relationship_naming refsSchema 0 0 refsTable refsFk rfl rfl rfl
  · rfl

/-- Counterexample to C6 as stated.  The claim predicts that, with no
keyword match, the fallback name is `HAS_<TABLE>` with `<TABLE>` the
referenced table name with underscores stripped and upper-cased — for
`refsFk` (referencing `tbl_orders`, no keyword containment, not flagged
aggregation, hint `ref`) that would be `HAS_TBLORDERS`.  The code also
removes every occurrence of `tbl`, producing `HAS_ORDERS`. -/
theorem c6_counterexample :
    (generate_relationship_names refsSchema).tables.map
        (fun t => t.foreign_keys.map (fun fk => fk.relationship_name))
      = [[some "HAS_ORDERS"]] ∧
    ("HAS_ORDERS" : String) ≠ "HAS_TBLORDERS" := by
  constructor
  · rfl
  · decide

/-! ## C7: semantics of materialized relationships -/

theorem relationshipOfFk_semantics (t : Table) (fk : ForeignKey) :
    (relationshipOfFk t fk).semantics = specSemantics fk := by
  cases hod : fk.on_delete with
  | none =>
    by_cases h1 : fk.is_inheritance = true <;>
      by_cases h2 : (fk.is_aggregation || fk.is_weak_entity) = true <;>
        simp [relationshipOfFk, specSemantics, hod, h1, h2]
  | some d =>
    by_cases h1 : fk.is_inheritance = true <;>
      by_cases h2 : (fk.is_aggregation || fk.is_weak_entity) = true <;>
        by_cases h3 : pyIn "CASCADE" (pyUpper d) = true <;>
          simp [relationshipOfFk, specSemantics, hod, h1, h2, h3]

/-- C7: for every foreign key of a non-junction table, the conceptual
relationship built in the materialization pass is present in the output
and has semantics given by `specSemantics` (INHERITANCE if flagged, else
COMPOSITION if flagged aggregation or weak with a CASCADE delete rule,
else AGGREGATION if flagged aggregation or weak, else ASSOCIATION) and
cardinality parsed from the cardinality string with default `N:1`; in
particular in the fully enriched scenario schema the
`courses.department_id → departments` relationship is AGGREGATION (not
COMPOSITION) with cardinality MANY_TO_ONE. -/
theorem c7_relationship_semantics (s : DatabaseSchema) (t : Table) (fk : ForeignKey)
    (ht : t ∈ s.tables) (hj : t.is_junction_table = false) (hfk : fk ∈ t.foreign_keys) :
    relationshipOfFk t fk ∈ create_conceptual_relationships s ∧
    (relationshipOfFk t fk).semantics = specSemantics fk ∧
    (relationshipOfFk t fk).cardinality = parse_cardinality (pyOrElse fk.cardinality "N:1") ∧
    ((enrich scenarioSchema).relationships.filter
        (fun r => r.source_entity == "courses" && r.target_entity == "departments"))
      = [{ name := "WORKS_IN", source_entity := "courses", target_entity := "departments",
           cardinality := RelationshipCardinality.MANY_TO_ONE,
           semantics := RelationshipSemantics.AGGREGATION,
           source_foreign_key := some "fk_courses_department",
           is_mandatory_source := true }] := by
  refine ⟨?_, relationshipOfFk_semantics t fk, rfl, rfl⟩
  show _ ∈ (s.tables.filter (fun tb => !tb.is_junction_table)).flatMap
      (fun tb => tb.foreign_keys.map (relationshipOfFk tb)) ++ _
  apply List.mem_append_left
  rw [List.mem_flatMap]
  exact ⟨t, List.mem_filter.mpr ⟨ht, by rw [hj]; rfl⟩, List.mem_map_of_mem _ hfk⟩

/-- Witness for `c7_relationship_semantics` at the scenario schema's
`courses.department_id` foreign key. -/
theorem c7_relationship_semantics_witness :
    relationshipOfFk coursesTable coursesFk ∈ create_conceptual_relationships scenarioSchema ∧
    (relationshipOfFk coursesTable coursesFk).semantics = specSemantics coursesFk ∧
    (relationshipOfFk coursesTable coursesFk).cardinality
      = parse_cardinality (pyOrElse coursesFk.cardinality "N:1") ∧
    ((enrich scenarioSchema).relationships.filter
        (fun r => r.source_entity == "courses" && r.target_entity == "departments"))
      = [{ name := "WORKS_IN", source_entity := "courses", target_entity := "departments",
           cardinality := RelationshipCardinality.MANY_TO_ONE,
           semantics := RelationshipSemantics.AGGREGATION,
           source_foreign_key := some "fk_courses_department",
           is_mandatory_source := true }] :=
  c7_relationship_semantics scenarioSchema coursesTable coursesFk
    (by decide) rfl (by decide)

/-! ## C1: the conceptual transform path raises TypeError -/

/-- C1 evidence: evaluating the transformer on a conceptual model with a
single relationship (and no schema) reaches
`_conceptual_relationship_to_edge`, whose `RelationshipType(...)` call
passes the keyword arguments `from_node`/`to_node`/`cardinality`/`semantics`
that the dataclass does not declare, so `transform()` raises `TypeError` —
a third error situation beyond the two admitted by the claim.  The
no-input `ValueError` situation behaves as the claim says. -/
theorem c1_transform_conceptual_raises :
    transform none (some singleRelConceptualModel)
      = .error (.typeError
          "RelationshipType init got an unexpected keyword argument from_node") ∧
    singleRelConceptualModel.relationships.length = 1 ∧
    transform none none
      = .error (.valueError "Either conceptual model or db schema must be provided") :=
  ⟨rfl, rfl, rfl⟩

/-! ## C10: row conversion -/

theorem foldl_guard_filter {α β : Type} (p : α → Bool) (f : β → α → β) (l : List α) :
    ∀ b : β,
      l.foldl (fun acc x => if p x then acc else f acc x) b
        = (l.filter (fun x => !p x)).foldl f b := by
  induction l with
  | nil => intro b; rfl
  | cons h t ih =>
    intro b
    by_cases hp : p h = true
    · rw [List.foldl_cons, if_pos hp, List.filter_cons, if_neg (by simp [hp])]
      exact ih b
    · rw [List.foldl_cons, if_neg hp, List.filter_cons,
        if_pos (by simp [Bool.not_eq_true] at hp; simp [hp])]
      rw [List.foldl_cons]
      exact ih (f b h)

theorem assocSet_fresh {α : Type} {l : List (String × α)} {k : String} (v : α)
    (h : ∀ kv ∈ l, kv.1 ≠ k) : assocSet l k v = l ++ [(k, v)] := by
  unfold assocSet
  rw [if_neg]
  intro hc
  rw [List.any_eq_true] at hc
  obtain ⟨kv, hmem, hkv⟩ := hc
  exact h kv hmem (by simpa using hkv)

theorem foldl_assocSet_eq_append_map {β : Type} (key : β → String) (val : β → PyVal)
    (l : List β) :
    ∀ acc : List (String × PyVal),
      (∀ x ∈ l, ∀ kv ∈ acc, kv.1 ≠ key x) → (l.map key).Nodup →
      l.foldl (fun acc0 x => assocSet acc0 (key x) (val x)) acc
        = acc ++ l.map (fun x => (key x, val x)) := by
  induction l with
  | nil => intro acc _ _; simp
  | cons x t ih =>
    intro acc hfresh hnodup
    rw [List.foldl_cons, assocSet_fresh (val x) (fun kv hm => hfresh x (by simp) kv hm)]
    rw [List.map_cons, List.nodup_cons] at hnodup
    rw [ih (acc ++ [(key x, val x)]) ?_ hnodup.2]
    · simp
    · intro y hy kv hkv
      rcases List.mem_append.mp hkv with hk | hk
      · exact hfresh y (by simp [hy]) kv hk
      · simp only [List.mem_singleton] at hk
        subst hk
        intro he
        have he2 : key x = key y := he
        exact hnodup.1 (he2 ▸ List.mem_map_of_mem key hy)

theorem assocGet_map_of_nodup {β : Type} (key : β → String) (val : β → PyVal)
    (l : List β) (hnodup : (l.map key).Nodup) (x : β) (hx : x ∈ l) :
    assocGet (l.map fun y => (key y, val y)) (key x) = some (val x) := by
  induction l with
  | nil => simp at hx
  | cons y t ih =>
    rw [List.map_cons, List.nodup_cons] at hnodup
    rcases List.mem_cons.mp hx with h | h
    · subst h
      unfold assocGet
      rw [List.map_cons, List.find?_cons_of_pos _ (by simp)]
    · by_cases hk : key y = key x
      · exact absurd (hk ▸ List.mem_map_of_mem key h) hnodup.1
      · unfold assocGet
        rw [List.map_cons,
          List.find?_cons_of_neg (p := fun kv : String × PyVal => kv.1 == key x) _
            (by simpa using hk)]
        exact ih hnodup.2 h

theorem convert_value_json_fail (jsonLoads : String → Option PyVal)
    (reprFn : PyVal → String) (sv sql_type : String)
    (hjson : pyIn "json" (pyLower sql_type) = true) (hfail : jsonLoads sv = none) :
    convert_value jsonLoads reprFn (PyVal.vStr sv) sql_type = PyVal.vStr sv := by
  by_cases hdate : (pyIn "date" (pyLower sql_type) || pyIn "time" (pyLower sql_type)) = true
  · simp [convert_value, pyStrOf, hdate]
  · simp [convert_value, hdate, hjson, hfail]

/-- C10 (amended): for a table known to the schema with a node label in
the graph model, and with pairwise-distinct sanitized property names of
its non-foreign-key columns, `transform_row_to_node` returns one entry
per non-foreign-key column keyed by the sanitized name; a column absent
from the input row appears with value `None`, a `None` value is returned
as `None` without conversion, and a JSON-typed string value that fails to
parse is returned as the raw string rather than raising.  (When two
non-foreign-key columns sanitize to the same property name, the dict
assignment overwrites instead, see the counterexample.) -/
theorem c10_row_conversion (s : DatabaseSchema) (g : GraphModel)
    (jsonLoads : String → Option PyVal) (reprFn : PyVal → String)
    (table_name : String) (t : Table) (nl : NodeLabel)
    (row : List (String × PyVal))
    (hnl : g.get_node_label (sanitize_label table_name) = some nl)
    (ht : s.get_table table_name = some t)
    (hdistinct : ((nonFkColumns t).map (fun c => sanitize_property_name c.name)).Nodup) :
    ∃ props, transform_row_to_node (some s) g jsonLoads reprFn table_name row = .ok props ∧
      props.length = (nonFkColumns t).length ∧
      (∀ c ∈ nonFkColumns t,
        assocGet props (sanitize_property_name c.name)
          = some (convert_value jsonLoads reprFn
              (match assocGet row c.name with
               | some v => v
               | none => PyVal.vNone) c.data_type)) ∧
      (∀ c ∈ nonFkColumns t, assocGet row c.name = none →
        assocGet props (sanitize_property_name c.name) = some PyVal.vNone) ∧
      (∀ sql_type, convert_value jsonLoads reprFn PyVal.vNone sql_type = PyVal.vNone) ∧
      (∀ sv sql_type, pyIn "json" (pyLower sql_type) = true → jsonLoads sv = none →
        convert_value jsonLoads reprFn (PyVal.vStr sv) sql_type = PyVal.vStr sv) := by
  have hfold : t.columns.foldl (fun props column =>
      if t.foreign_keys.any (fun fk => fk.column == column.name) then props
      else
        assocSet props (sanitize_property_name column.name)
          (convert_value jsonLoads reprFn
            (match assocGet row column.name with
             | some v => v
             | none => PyVal.vNone) column.data_type)) []
      = (nonFkColumns t).map (fun c => (sanitize_property_name c.name,
          convert_value jsonLoads reprFn
            (match assocGet row c.name with
             | some v => v
             | none => PyVal.vNone) c.data_type)) := by
    rw [foldl_guard_filter (fun column =>
        t.foreign_keys.any (fun fk => fk.column == column.name)) _ t.columns []]
    exact foldl_assocSet_eq_append_map _ _ _ [] (by simp) hdistinct
  refine ⟨(nonFkColumns t).map (fun c => (sanitize_property_name c.name,
      convert_value jsonLoads reprFn
        (match assocGet row c.name with
         | some v => v
         | none => PyVal.vNone) c.data_type)), ?_, ?_, ?_, ?_, ?_, ?_⟩
  · unfold transform_row_to_node
    simp only [hnl, ht]
    rw [hfold]
  · simp
  · intro c hc
    exact assocGet_map_of_nodup (fun c => sanitize_property_name c.name) _
      (nonFkColumns t) hdistinct c hc
  · intro c hc habsent
    have hg := assocGet_map_of_nodup (fun c => sanitize_property_name c.name)
      (fun c => convert_value jsonLoads reprFn
        (match assocGet row c.name with
         | some v => v
         | none => PyVal.vNone) c.data_type) (nonFkColumns t) hdistinct c hc
    rw [hg]
    simp only [habsent]
    rfl
  · intro sql_type
    rfl
  · exact convert_value_json_fail jsonLoads reprFn

/-- Witness for `c10_row_conversion`: the `students` table of the
scenario schema, its node label from the fallback transformation, and a
row missing the `name` column. -/
theorem c10_row_conversion_witness :
    ∃ props, transform_row_to_node (some scenarioSchema)
        (transform_from_schema scenarioSchema
          (initGraphModel (some scenarioSchema) none))
        (fun _ => none) (fun _ => "") "students" [("id", PyVal.vInt 7)] = .ok props ∧
      props.length = (nonFkColumns studentsTable).length ∧
      (∀ c ∈ nonFkColumns studentsTable,
        assocGet props (sanitize_property_name c.name)
          = some (convert_value (fun _ => none) (fun _ => "")
              (match assocGet [("id", PyVal.vInt 7)] c.name with
               | some v => v
               | none => PyVal.vNone) c.data_type)) ∧
      (∀ c ∈ nonFkColumns studentsTable,
        assocGet [("id", PyVal.vInt 7)] c.name = none →
        assocGet props (sanitize_property_name c.name) = some PyVal.vNone) ∧
      (∀ sql_type, convert_value (fun _ => none) (fun _ => "") PyVal.vNone sql_type
        = PyVal.vNone) ∧
      (∀ sv sql_type, pyIn "json" (pyLower sql_type) = true →
        (fun _ => (none : Option PyVal)) sv = none →
        convert_value (fun _ => none) (fun _ => "") (PyVal.vStr sv) sql_type
          = PyVal.vStr sv) :=
  c10_row_conversion scenarioSchema
    (transform_from_schema scenarioSchema (initGraphModel (some scenarioSchema) none))
    (fun _ => none) (fun _ => "") "students" studentsTable
    (table_to_node_label studentsTable) [("id", PyVal.vInt 7)] rfl rfl (by decide)

/-- Counterexample to C10 as stated: the columns `a_b` and `a__b` of
`collidingTable` both sanitize to the property name `aB`, so the returned
map holds one entry (the last column wins) instead of one entry per
non-foreign-key column, and the value stored for the key of column `a_b`
is that of column `a__b`. -/
theorem c10_counterexample :
    transform_row_to_node (some collidingSchema) collidingGraph
        (fun _ => none) (fun _ => "") "t"
        [("a_b", PyVal.vInt 1), ("a__b", PyVal.vInt 2)]
      = .ok [("aB", PyVal.vInt 2)] ∧
    (nonFkColumns collidingTable).length = 2 ∧
    sanitize_property_name "a_b" = sanitize_property_name "a__b" ∧
    (1 : Nat) ≠ 2 :=
  ⟨rfl, rfl, rfl, by decide⟩

/-! ## C4: the weak-entity pass -/

theorem detectWeak_foldl_spec (t : Table) (l : List ForeignKey) :
    ∀ (fks : List ForeignKey) (w : Bool) (o : Option String) (gs : WeakGroups),
      l.foldl (detectWeakFkStep t) (fks, w, o, gs)
        = (fks ++ l.map (weakFkUpdate t),
           w || l.any (weakMatch t),
           (l.filter (weakMatch t)).foldl (fun _ fk => some fk.referenced_table) o,
           (l.filter (weakMatch t)).foldl
             (fun gs0 fk => addWeakGroup gs0 fk.referenced_table t.name) gs) := by
  induction l with
  | nil => intro fks w o gs; simp
  | cons fk rest ih =>
    intro fks w o gs
    rw [List.foldl_cons]
    by_cases h1 : fk.is_inheritance = true
    · have hstep : detectWeakFkStep t (fks, w, o, gs) fk = (fks ++ [fk], w, o, gs) := by
        simp [detectWeakFkStep, h1]
      have hm : weakMatch t fk = false := by simp [weakMatch, h1]
      rw [hstep, ih]
      simp [weakFkUpdate, h1, List.filter_cons, hm, List.any_cons]
    · by_cases h2 : fkIdentifying t fk = true
      · have hstep : detectWeakFkStep t (fks, w, o, gs) fk
            = (fks ++ [{ fk with is_weak_entity := true, is_aggregation := true }], true,
               some fk.referenced_table, addWeakGroup gs fk.referenced_table t.name) := by
          simp [detectWeakFkStep, h1, h2]
        have hm : weakMatch t fk = true := by simp [weakMatch, h1, h2]
        rw [hstep, ih]
        simp [weakFkUpdate, h1, h2, List.filter_cons, hm, List.any_cons]
      · have hm : weakMatch t fk = false := by simp [weakMatch, h1, h2]
        by_cases h3 : (fkCascadeDelete fk || fkNotNullColumn t fk) = true
        · have hstep : detectWeakFkStep t (fks, w, o, gs) fk
              = (fks ++ [{ fk with is_aggregation := true }], w, o, gs) := by
            simp [detectWeakFkStep, h1, h2, h3]
          rw [hstep, ih]
          simp [weakFkUpdate, h1, h2, h3, List.filter_cons, hm, List.any_cons]
        · have h3b := h3
          rw [Bool.or_eq_true] at h3b
          have hstep : detectWeakFkStep t (fks, w, o, gs) fk = (fks ++ [fk], w, o, gs) := by
            simp [detectWeakFkStep, h1, h2, h3b]
          rw [hstep, ih]
          simp [weakFkUpdate, h1, h2, h3, List.filter_cons, hm, List.any_cons]

theorem detectWeakTable_eq (acc : List Table × WeakGroups) (t : Table) :
    detectWeakTable acc t = (acc.1 ++ [weakTableFn t], weakGroupsFn t acc.2) := by
  obtain ⟨ts, gs⟩ := acc
  by_cases h1 : t.is_subclass = true
  · simp [detectWeakTable, weakTableFn, weakGroupsFn, h1]
  · by_cases h2 : t.foreign_keys.isEmpty = true
    · simp [detectWeakTable, weakTableFn, weakGroupsFn, h1, h2]
    · show (if t.is_subclass then _ else if t.foreign_keys.isEmpty then _ else _) = _
      rw [if_neg h1, if_neg h2]
      show (ts ++ [_], _) = _
      rw [detectWeak_foldl_spec t t.foreign_keys [] t.is_weak_entity t.owner_table gs]
      unfold weakTableFn weakGroupsFn
      rw [if_neg h1, if_neg h2, if_neg h1, if_neg h2]
      simp

theorem detect_weak_char (s : DatabaseSchema) :
    detect_weak_entities_and_aggregation s
      = ({ s with tables := s.tables.map weakTableFn },
         s.tables.foldl (fun gs t => weakGroupsFn t gs) []) := by
  have hfold : ∀ (l : List Table) (ts : List Table) (gs : WeakGroups),
      l.foldl detectWeakTable (ts, gs)
        = (ts ++ l.map weakTableFn, l.foldl (fun gs0 t => weakGroupsFn t gs0) gs) := by
    intro l
    induction l with
    | nil => intro ts gs; simp
    | cons t rest ih =>
      intro ts gs
      rw [List.foldl_cons, detectWeakTable_eq, ih]
      simp
  unfold detect_weak_entities_and_aggregation
  rw [hfold s.tables [] []]
  simp

theorem flattenCount_addWeakGroup (gs : WeakGroups) (o d m : String) :
    flattenCount (addWeakGroup gs o d) m
      = flattenCount gs m + (if d = m then 1 else 0) := by
  induction gs with
  | nil =>
    by_cases hdm : d = m <;> simp [addWeakGroup, flattenCount, List.count_cons, hdm]
  | cons kv rest ih =>
    by_cases hk : (kv.1 == o) = true
    · by_cases hdm : d = m <;>
        simp [addWeakGroup, hk, flattenCount, List.count_append, List.count_cons, hdm] <;>
        omega
    · have : flattenCount (kv :: addWeakGroup rest o d) m
          = kv.2.count m + flattenCount (addWeakGroup rest o d) m := by
        simp [flattenCount, List.count_append]
      rw [show addWeakGroup (kv :: rest) o d = kv :: addWeakGroup rest o d by
        simp [addWeakGroup, hk]]
      rw [this, ih]
      simp [flattenCount, List.count_append]
      omega

theorem flattenCount_groupsFold (t : Table) (m : String) (l : List ForeignKey) :
    ∀ gs : WeakGroups,
      flattenCount (l.foldl (fun gs0 fk => addWeakGroup gs0 fk.referenced_table t.name) gs) m
        = flattenCount gs m + (if t.name = m then l.length else 0) := by
  induction l with
  | nil => intro gs; simp
  | cons fk rest ih =>
    intro gs
    rw [List.foldl_cons, ih, flattenCount_addWeakGroup]
    by_cases hm : t.name = m <;> simp [hm] <;> omega

theorem flattenCount_weakGroupsFn_ne (t : Table) (gs : WeakGroups) (m : String)
    (hname : t.name ≠ m) :
    flattenCount (weakGroupsFn t gs) m = flattenCount gs m := by
  unfold weakGroupsFn
  by_cases h1 : t.is_subclass = true
  · rw [if_pos h1]
  · rw [if_neg h1]
    by_cases h2 : t.foreign_keys.isEmpty = true
    · rw [if_pos h2]
    · rw [if_neg h2, flattenCount_groupsFold, if_neg hname]
      rfl

theorem flattenCount_pass_ne (m : String) (l : List Table) :
    ∀ gs : WeakGroups, (∀ tb ∈ l, tb.name ≠ m) →
      flattenCount (l.foldl (fun gs0 tb => weakGroupsFn tb gs0) gs) m = flattenCount gs m := by
  induction l with
  | nil => intro gs _; rfl
  | cons t rest ih =>
    intro gs h
    rw [List.foldl_cons, ih _ (fun tb htb => h tb (by simp [htb]))]
    exact flattenCount_weakGroupsFn_ne t gs m (h t (by simp))

theorem nodup_name_split {l : List Table} {i : Nat} {t : Table}
    (h : l[i]? = some t) (hnodup : (l.map Table.name).Nodup) :
    ∃ l1 l2, l = l1 ++ t :: l2 ∧ l1.length = i ∧ (∀ tb ∈ l1, tb.name ≠ t.name) ∧
      (∀ tb ∈ l2, tb.name ≠ t.name) := by
  induction l generalizing i with
  | nil => simp at h
  | cons a rest ih =>
    rw [List.map_cons, List.nodup_cons] at hnodup
    cases i with
    | zero =>
      rw [List.getElem?_cons_zero] at h
      injection h with h
      subst h
      refine ⟨[], rest, rfl, rfl, by simp, ?_⟩
      intro tb htb he
      exact hnodup.1 (he ▸ List.mem_map_of_mem Table.name htb)
    | succ i0 =>
      rw [List.getElem?_cons_succ] at h
      obtain ⟨l1, l2, hdec, hlen, h1, h2⟩ := ih h hnodup.2
      refine ⟨a :: l1, l2, by rw [hdec]; rfl, by simp [hlen], ?_, h2⟩
      intro tb htb
      rcases List.mem_cons.mp htb with he | he
      · subst he
        intro hc
        have : t ∈ rest := by
          rw [hdec]
          exact List.mem_append_right l1 (List.mem_cons_self t l2)
        exact hnodup.1 (hc ▸ List.mem_map_of_mem Table.name this)
      · exact h1 tb he

theorem foldl_owner_last (l : List ForeignKey) :
    ∀ o : Option String,
      l.foldl (fun (_ : Option String) fk => some fk.referenced_table) o
        = match l.getLast? with
          | some fk => some fk.referenced_table
          | none => o := by
  induction l with
  | nil => intro o; rfl
  | cons a rest ih =>
    intro o
    rw [List.foldl_cons, ih]
    cases rest with
    | nil => rfl
    | cons b rest2 =>
      rw [List.getLast?_cons_cons]
      cases hlast : (b :: rest2).getLast? with
      | none => simp at hlast
      | some fk => rfl

/-- C4 (amended): during the weak-entity pass, for every table not marked
`is_subclass` with at least two non-inheritance foreign keys whose local
columns are part of the primary key, *every* such foreign key triggers
the full weak-entity assignment: each sets the foreign key's weak and
aggregation flags, each overwrites the table's `owner_table` with its own
referenced table (so the *last* matching foreign key in iteration order
wins), and each appends a further `weak_entity_groups` entry — one entry
of the table's name per matching foreign key. -/
theorem c4_weak_entity_last_match (s : DatabaseSchema) (i : Nat) (t : Table)
    (hnodup : (s.tables.map Table.name).Nodup)
    (ht : s.tables[i]? = some t) (hsub : t.is_subclass = false)
    (hms : 2 ≤ (t.foreign_keys.filter (weakMatch t)).length) :
    ∃ t2 : Table, (detect_weak_entities_and_aggregation s).1.tables[i]? = some t2 ∧
      t2.is_weak_entity = true ∧
      (∃ lastFk : ForeignKey,
        (t.foreign_keys.filter (weakMatch t)).getLast? = some lastFk ∧
        t2.owner_table = some lastFk.referenced_table) ∧
      (∀ (j : Nat) (fk : ForeignKey), t.foreign_keys[j]? = some fk → weakMatch t fk = true →
        ∃ fk2 : ForeignKey, t2.foreign_keys[j]? = some fk2 ∧ fk2.is_weak_entity = true ∧
          fk2.is_aggregation = true) ∧
      flattenCount (detect_weak_entities_and_aggregation s).2 t.name
        = (t.foreign_keys.filter (weakMatch t)).length := by
  have hfilter_ne : (t.foreign_keys.filter (weakMatch t)) ≠ [] := by
    intro hc
    rw [hc] at hms
    simp at hms
  have hfks_ne : t.foreign_keys.isEmpty = false := by
    cases hfk : t.foreign_keys with
    | nil => rw [hfk] at hfilter_ne; simp at hfilter_ne
    | cons a b => rfl
  have htfn : weakTableFn t
      = { t with
          foreign_keys := t.foreign_keys.map (weakFkUpdate t),
          is_weak_entity := t.is_weak_entity || t.foreign_keys.any (weakMatch t),
          owner_table := (t.foreign_keys.filter (weakMatch t)).foldl
            (fun _ fk => some fk.referenced_table) t.owner_table } := by
    unfold weakTableFn
    rw [if_neg (by rw [hsub]; exact Bool.false_ne_true),
      if_neg (by rw [hfks_ne]; exact Bool.false_ne_true)]
  refine ⟨weakTableFn t, ?_, ?_, ?_, ?_, ?_⟩
  · rw [detect_weak_char]
    show (s.tables.map weakTableFn)[i]? = _
    rw [List.getElem?_map, ht]
    rfl
  · rw [htfn]
    show (t.is_weak_entity || t.foreign_keys.any (weakMatch t)) = true
    have : t.foreign_keys.any (weakMatch t) = true := by
      rw [List.any_eq_true]
      cases hfl : t.foreign_keys.filter (weakMatch t) with
      | nil => exact absurd hfl hfilter_ne
      | cons a b =>
        have ha : a ∈ t.foreign_keys.filter (weakMatch t) := by
          rw [hfl]; exact List.mem_cons_self a b
        rw [List.mem_filter] at ha
        exact ⟨a, ha.1, ha.2⟩
    rw [this]
    simp
  · cases hlast : (t.foreign_keys.filter (weakMatch t)).getLast? with
    | none =>
      rw [List.getLast?_eq_none_iff] at hlast
      exact absurd hlast hfilter_ne
    | some lastFk =>
      refine ⟨lastFk, rfl, ?_⟩
      rw [htfn]
      show (t.foreign_keys.filter (weakMatch t)).foldl
        (fun _ fk => some fk.referenced_table) t.owner_table = _
      rw [foldl_owner_last, hlast]
  · intro j fk hfk hmatch
    rw [htfn]
    refine ⟨weakFkUpdate t fk, ?_, ?_, ?_⟩
    · show (t.foreign_keys.map (weakFkUpdate t))[j]? = _
      rw [List.getElem?_map, hfk]
      rfl
    · unfold weakFkUpdate weakMatch at *
      rw [Bool.and_eq_true] at hmatch
      have hni : fk.is_inheritance = false := by
        have := hmatch.1
        simp at this
        exact this
      rw [if_neg (by rw [hni]; exact Bool.false_ne_true), if_pos hmatch.2]
    · unfold weakFkUpdate weakMatch at *
      rw [Bool.and_eq_true] at hmatch
      have hni : fk.is_inheritance = false := by
        have := hmatch.1
        simp at this
        exact this
      rw [if_neg (by rw [hni]; exact Bool.false_ne_true), if_pos hmatch.2]
  · rw [detect_weak_char]
    show flattenCount (s.tables.foldl (fun gs tb => weakGroupsFn tb gs) []) t.name = _
    obtain ⟨l1, l2, hdec, _, h1, h2⟩ := nodup_name_split ht hnodup
    rw [hdec, List.foldl_append, List.foldl_cons]
    rw [flattenCount_pass_ne t.name l2 _ h2]
    have hl1 : flattenCount (l1.foldl (fun gs0 tb => weakGroupsFn tb gs0) []) t.name = 0 := by
      rw [flattenCount_pass_ne t.name l1 [] h1]
      rfl
    have hwg : weakGroupsFn t (l1.foldl (fun gs0 tb => weakGroupsFn tb gs0) [])
        = (t.foreign_keys.filter (weakMatch t)).foldl
            (fun gs1 fk => addWeakGroup gs1 fk.referenced_table t.name)
            (l1.foldl (fun gs0 tb => weakGroupsFn tb gs0) []) := by
      unfold weakGroupsFn
      rw [if_neg (by rw [hsub]; exact Bool.false_ne_true),
        if_neg (by rw [hfks_ne]; exact Bool.false_ne_true)]
    rw [hwg, flattenCount_groupsFold, hl1, if_pos rfl]
    omega

/-- Witness for `c4_weak_entity_last_match` at `multiWeakSchema`. -/
theorem c4_weak_entity_last_match_witness :
    ∃ t2, (detect_weak_entities_and_aggregation multiWeakSchema).1.tables[0]? = some t2 ∧
      t2.is_weak_entity = true ∧
      (∃ lastFk : ForeignKey,
        (multiWeakTable.foreign_keys.filter (weakMatch multiWeakTable)).getLast?
          = some lastFk ∧
        t2.owner_table = some lastFk.referenced_table) ∧
      (∀ (j : Nat) (fk : ForeignKey), multiWeakTable.foreign_keys[j]? = some fk →
        weakMatch multiWeakTable fk = true →
        ∃ fk2 : ForeignKey, t2.foreign_keys[j]? = some fk2 ∧ fk2.is_weak_entity = true ∧
          fk2.is_aggregation = true) ∧
      flattenCount (detect_weak_entities_and_aggregation multiWeakSchema).2
          multiWeakTable.name
        = (multiWeakTable.foreign_keys.filter (weakMatch multiWeakTable)).length :=
  c4_weak_entity_last_match multiWeakSchema 0 multiWeakTable
    (by decide) rfl rfl (by decide)

/-- Counterexample to C4 as stated.  `multiWeakTable` (`order_items`) has
two identifying foreign keys, the first referencing `orders`, the second
`products`.  The claim says only the first establishes weak-entity state
and later ones change neither `owner_table` nor `weak_entity_groups`;
after the pass, `owner_table` is `products` (the second foreign key) and
`weak_entity_groups` holds two entries. -/
theorem c4_counterexample :
    (detect_weak_entities_and_aggregation multiWeakSchema).1.tables.map
        (fun t => t.owner_table) = [some "products"] ∧
    (detect_weak_entities_and_aggregation multiWeakSchema).2
      = [("orders", ["order_items"]), ("products", ["order_items"])] ∧
    multiWeakTable.foreign_keys[0]?.map (fun fk => fk.referenced_table) = some "orders" ∧
    ("products" : String) ≠ "orders" :=
  ⟨rfl, rfl, rfl, by decide⟩

/-! ## List and schema-update utility lemmas -/

theorem foldl_preserve {α β : Type} {P : α → Prop} {f : α → β → α} {l : List β}
    (h : ∀ a b, b ∈ l → P a → P (f a b)) : ∀ a, P a → P (l.foldl f a) := by
  induction l with
  | nil => intro a ha; exact ha
  | cons x t ih =>
    intro a ha
    rw [List.foldl_cons]
    exact ih (fun a0 b hb => h a0 b (by simp [hb])) _ (h a x (by simp) ha)

theorem find?_decomp {l : List Table} {n : String} {t : Table}
    (h : l.find? (fun x => x.name == n) = some t) :
    ∃ l1 l2, l = l1 ++ t :: l2 ∧ (∀ x ∈ l1, x.name ≠ n) ∧ t.name = n := by
  induction l with
  | nil => simp at h
  | cons a rest ih =>
    by_cases ha : (a.name == n) = true
    · rw [List.find?_cons_of_pos (p := fun x : Table => x.name == n) _ ha] at h
      injection h with h
      subst h
      exact ⟨[], rest, rfl, by simp, by simpa using ha⟩
    · rw [List.find?_cons_of_neg (p := fun x : Table => x.name == n) _ ha] at h
      obtain ⟨l1, l2, hdec, h1, h2⟩ := ih h
      refine ⟨a :: l1, l2, by rw [hdec]; rfl, ?_, h2⟩
      intro x hx
      rcases List.mem_cons.mp hx with he | he
      · subst he
        simpa using ha
      · exact h1 x he

theorem updateTableList_first {t : Table} {n : String} (l1 : List Table) :
    ∀ (l2 : List Table) (f : Table → Table), (∀ x ∈ l1, x.name ≠ n) → t.name = n →
      updateTableList (l1 ++ t :: l2) n f = l1 ++ f t :: l2 := by
  induction l1 with
  | nil =>
    intro l2 f _ htn
    show updateTableList (t :: l2) n f = _
    unfold updateTableList
    rw [if_pos (by simpa using htn)]
    rfl
  | cons a r ih =>
    intro l2 f h1 htn
    show updateTableList (a :: (r ++ t :: l2)) n f = _
    unfold updateTableList
    rw [if_neg (by simpa using h1 a (by simp))]
    rw [ih l2 f (fun x hx => h1 x (by simp [hx])) htn]
    rfl

theorem updateTableList_getElem_ne {n : String} {f : Table → Table} {t : Table}
    {l : List Table} {i : Nat}
    (h : l[i]? = some t) (hne : t.name ≠ n) : (updateTableList l n f)[i]? = some t := by
  induction l generalizing i with
  | nil => simp at h
  | cons a rest ih =>
    cases i with
    | zero =>
      rw [List.getElem?_cons_zero] at h
      injection h with h
      subst h
      unfold updateTableList
      rw [if_neg (by simpa using hne)]
      simp
    | succ i0 =>
      rw [List.getElem?_cons_succ] at h
      unfold updateTableList
      by_cases ha : (a.name == n) = true
      · rw [if_pos ha]
        simpa using h
      · rw [if_neg ha]
        rw [List.getElem?_cons_succ]
        exact ih h

theorem updateTableList_getElem_super {n : String} {t : Table} {l : List Table} {i : Nat}
    (h : l[i]? = some t) :
    (updateTableList l n (fun tb => { tb with is_superclass := true }))[i]? = some t ∨
    (updateTableList l n (fun tb => { tb with is_superclass := true }))[i]?
      = some { t with is_superclass := true } := by
  induction l generalizing i with
  | nil => simp at h
  | cons a rest ih =>
    cases i with
    | zero =>
      rw [List.getElem?_cons_zero] at h
      injection h with h
      unfold updateTableList
      by_cases ha : (a.name == n) = true
      · rw [if_pos ha]
        right
        rw [← h]
        simp
      · rw [if_neg ha]
        left
        rw [← h]
        simp
    | succ i0 =>
      rw [List.getElem?_cons_succ] at h
      unfold updateTableList
      by_cases ha : (a.name == n) = true
      · rw [if_pos ha]
        left
        simpa using h
      · rw [if_neg ha]
        rw [List.getElem?_cons_succ]
        exact ih h

theorem updateTableList_skel_all {n : String} {f : Table → Table}
    (hf : ∀ t : Table, (f t).skel = t.skel) (l : List Table) :
    (updateTableList l n f).map Table.skel = l.map Table.skel := by
  induction l with
  | nil => rfl
  | cons a rest ih =>
    unfold updateTableList
    by_cases ha : (a.name == n) = true
    · rw [if_pos ha]
      rw [List.map_cons, List.map_cons, hf]
    · rw [if_neg ha]
      rw [List.map_cons, List.map_cons, ih]

theorem updateTableList_names_all {n : String} {f : Table → Table}
    (hf : ∀ t : Table, (f t).name = t.name) (l : List Table) :
    (updateTableList l n f).map Table.name = l.map Table.name := by
  induction l with
  | nil => rfl
  | cons a rest ih =>
    unfold updateTableList
    by_cases ha : (a.name == n) = true
    · rw [if_pos ha]
      rw [List.map_cons, List.map_cons, hf]
    · rw [if_neg ha]
      rw [List.map_cons, List.map_cons, ih]

theorem set_getElem_self {α : Type} {l : List α} {i : Nat} {a : α}
    (h : l[i]? = some a) : l.set i a = l := by
  induction l generalizing i with
  | nil => rfl
  | cons x rest ih =>
    cases i with
    | zero =>
      rw [List.getElem?_cons_zero] at h
      injection h with h
      rw [h]
      rfl
    | succ i0 =>
      rw [List.getElem?_cons_succ] at h
      show x :: rest.set i0 a = _
      rw [ih h]

theorem find?_name_of_nodup {l : List Table} {k : Nat} {t : Table}
    (hk : l[k]? = some t) (hnodup : (l.map Table.name).Nodup) :
    l.find? (fun x => x.name == t.name) = some t := by
  obtain ⟨l1, l2, hdec, _, h1, _⟩ := nodup_name_split hk hnodup
  rw [hdec, List.find?_append]
  have hnone : l1.find? (fun x => x.name == t.name) = none := by
    rw [List.find?_eq_none]
    intro x hx
    simpa using h1 x hx
  rw [hnone]
  show (t :: l2).find? (fun x => x.name == t.name) = _
  rw [List.find?_cons_of_pos _ (by simp)]

/-! ## Skeleton lemmas: the enrichment passes never write skeleton fields -/

theorem skel_name {u t : Table} (h : u.skel = t.skel) : u.name = t.name :=
  congrArg TableSkel.name h

theorem skel_columns {u t : Table} (h : u.skel = t.skel) : u.columns = t.columns :=
  congrArg TableSkel.columns h

theorem skel_primary_key {u t : Table} (h : u.skel = t.skel) :
    u.primary_key = t.primary_key :=
  congrArg TableSkel.primary_key h

theorem skel_fks {u t : Table} (h : u.skel = t.skel) :
    u.foreign_keys.map ForeignKey.skel = t.foreign_keys.map ForeignKey.skel :=
  congrArg TableSkel.fks h

theorem fkSkel_column {g fk : ForeignKey} (h : g.skel = fk.skel) : g.column = fk.column :=
  congrArg FkSkel.column h

theorem fkSkel_referenced_table {g fk : ForeignKey} (h : g.skel = fk.skel) :
    g.referenced_table = fk.referenced_table :=
  congrArg FkSkel.referenced_table h

theorem fkSkel_referenced_column {g fk : ForeignKey} (h : g.skel = fk.skel) :
    g.referenced_column = fk.referenced_column :=
  congrArg FkSkel.referenced_column h

theorem schema_names_of_skel {s1 s2 : DatabaseSchema} (h : s1.skel = s2.skel) :
    s1.tables.map Table.name = s2.tables.map Table.name := by
  have h2 : (s1.tables.map Table.skel).map TableSkel.name
      = (s2.tables.map Table.skel).map TableSkel.name := by
    rw [show s1.tables.map Table.skel = s2.tables.map Table.skel from h]
  rw [List.map_map, List.map_map] at h2
  exact h2

theorem skel_getElem {s' s : DatabaseSchema} (h : s'.skel = s.skel) {k : Nat} {t : Table}
    (ht : s.tables[k]? = some t) :
    ∃ u, s'.tables[k]? = some u ∧ u.skel = t.skel := by
  have h2 : (s'.tables.map Table.skel)[k]? = (s.tables.map Table.skel)[k]? := by
    rw [show s'.tables.map Table.skel = s.tables.map Table.skel from h]
  rw [List.getElem?_map, List.getElem?_map, ht] at h2
  cases hu : s'.tables[k]? with
  | none => rw [hu] at h2; simp at h2
  | some u =>
    rw [hu] at h2
    refine ⟨u, rfl, ?_⟩
    simpa using h2

theorem any_map_general {α β : Type} (f : α → β) (p : β → Bool) :
    ∀ l : List α, (l.map f).any p = l.any (fun a => p (f a))
  | [] => rfl
  | x :: xs => by simp only [List.map_cons, List.any_cons, any_map_general f p xs]

theorem is_junction_of_skel {u t : Table} (h : u.skel = t.skel) :
    u.is_junction_table = t.is_junction_table := by
  have hlen : u.foreign_keys.length = t.foreign_keys.length := by
    have := congrArg List.length (skel_fks h)
    simpa using this
  have hany : ∀ c : String, (u.foreign_keys.any fun fk => fk.column == c)
      = (t.foreign_keys.any fun fk => fk.column == c) := by
    intro c
    have h1 : (u.foreign_keys.map ForeignKey.skel).any (fun sk => sk.column == c)
        = (t.foreign_keys.map ForeignKey.skel).any (fun sk => sk.column == c) := by
      rw [skel_fks h]
    rw [any_map_general, any_map_general] at h1
    exact h1
  unfold Table.is_junction_table
  rw [hlen, skel_primary_key h]
  cases t.primary_key with
  | none => rfl
  | some pk =>
    by_cases h2 : (t.foreign_keys.length != 2) = true
    · rw [if_pos h2, if_pos h2]
    · rw [if_neg h2, if_neg h2]
      show pk.columns.all _ = pk.columns.all _
      have hfun : (fun c => u.foreign_keys.any fun fk => fk.column == c)
          = (fun c => t.foreign_keys.any fun fk => fk.column == c) := funext hany
      rw [hfun]

theorem inheritanceFkUpdate_skel (fk : ForeignKey) :
    (inheritanceFkUpdate fk).skel = fk.skel := rfl

theorem weakFkUpdate_skel (t : Table) (fk : ForeignKey) :
    (weakFkUpdate t fk).skel = fk.skel := by
  unfold weakFkUpdate
  by_cases h1 : fk.is_inheritance = true
  · rw [if_pos h1]
  · rw [if_neg h1]
    by_cases h2 : fkIdentifying t fk = true
    · rw [if_pos h2]
      rfl
    · rw [if_neg h2]
      by_cases h3 : (fkCascadeDelete fk || fkNotNullColumn t fk) = true
      · rw [if_pos h3]
        rfl
      · rw [if_neg h3]

theorem inferFkCardinality_skel (t : Table) (fk : ForeignKey) :
    (inferFkCardinality t fk).skel = fk.skel := by
  unfold inferFkCardinality
  by_cases h1 : pyTruthy fk.cardinality = true
  · rw [if_pos h1]
  · rw [if_neg h1]
    by_cases h2 : (fkSingleUniqueIndex t fk || fkIsWholePk t fk) = true
    · rw [if_pos h2]
      rfl
    · rw [if_neg h2]
      rfl

theorem generateFkName_skel (fk : ForeignKey) :
    (generateFkName fk).skel = fk.skel := by
  unfold generateFkName
  by_cases h1 : pyTruthy fk.relationship_name = true
  · rw [if_pos h1]
  · rw [if_neg h1]
    rfl

theorem detectInheritanceFk_skel (tname : String) (pkCols : List String)
    (st : Pass1State) (i : Nat) :
    (detectInheritanceFk tname pkCols st i).1.skel = st.1.skel := by
  unfold detectInheritanceFk
  split
  · rfl
  rename_i t hgt
  split
  · rfl
  rename_i fk hfk
  split
  · split
    · rfl
    rename_i rt hrt
    split
    · rfl
    rename_i rpk hrpk
    split
    · show ((st.1.updateTable tname _).updateTable fk.referenced_table _).skel = _
      obtain ⟨l1, l2, hdec, hl1, htn⟩ := find?_decomp hgt
      have hstep1 : (st.1.updateTable tname (fun tb =>
          { tb with is_subclass := true,
                    superclass_table := some fk.referenced_table,
                    foreign_keys := tb.foreign_keys.set i
                      (inheritanceFkUpdate fk) })).skel = st.1.skel := by
        show (updateTableList st.1.tables tname _).map Table.skel
          = st.1.tables.map Table.skel
        rw [hdec, updateTableList_first l1 l2 _ hl1 htn]
        have hft : ({ t with
                      is_subclass := true,
                      superclass_table := some fk.referenced_table,
                      foreign_keys := t.foreign_keys.set i
                        (inheritanceFkUpdate fk) } : Table).skel = t.skel := by
          show TableSkel.mk _ _ _ _ ((t.foreign_keys.set i
            (inheritanceFkUpdate fk)).map ForeignKey.skel) = _
          have hset : (t.foreign_keys.set i (inheritanceFkUpdate fk)).map
              ForeignKey.skel = t.foreign_keys.map ForeignKey.skel := by
            rw [List.map_set]
            apply set_getElem_self
            rw [List.getElem?_map, hfk]
            rfl
          rw [hset]
          rfl
        rw [List.map_append, List.map_append, List.map_cons, List.map_cons, hft]
      have hstep2 : ∀ s2 : DatabaseSchema,
          (s2.updateTable fk.referenced_table
            (fun tb => { tb with is_superclass := true })).skel = s2.skel := by
        intro s2
        exact updateTableList_skel_all
          (f := fun tb => { tb with is_superclass := true }) (fun tb => rfl) s2.tables
      rw [hstep2, hstep1]
    · rfl
  · rfl

theorem detectInheritanceTable_skel (st : Pass1State) (n : String) :
    (detectInheritanceTable st n).1.skel = st.1.skel := by
  unfold detectInheritanceTable
  split
  · rfl
  rename_i t hgt
  split
  · rfl
  rename_i pk hpk
  split
  · rfl
  · refine foldl_preserve (P := fun st2 : Pass1State => st2.1.skel = st.1.skel) ?_ st rfl
    intro a b _ ha
    rw [detectInheritanceFk_skel, ha]

theorem pass1_skel (s : DatabaseSchema) :
    (detect_inheritance_hierarchies s).1.skel = s.skel := by
  unfold detect_inheritance_hierarchies
  refine foldl_preserve (P := fun st2 : Pass1State => st2.1.skel = s.skel) ?_ (s, []) rfl
  intro a b _ ha
  rw [detectInheritanceTable_skel, ha]

theorem weakTableFn_skel (t : Table) : (weakTableFn t).skel = t.skel := by
  unfold weakTableFn
  by_cases h1 : t.is_subclass = true
  · rw [if_pos h1]
  · rw [if_neg h1]
    by_cases h2 : t.foreign_keys.isEmpty = true
    · rw [if_pos h2]
    · rw [if_neg h2]
      show TableSkel.mk _ _ _ _ ((t.foreign_keys.map (weakFkUpdate t)).map
        ForeignKey.skel) = _
      rw [List.map_map]
      have : (ForeignKey.skel ∘ weakFkUpdate t) = ForeignKey.skel := by
        funext fk
        exact weakFkUpdate_skel t fk
      rw [this]
      rfl

theorem pass2_skel (s : DatabaseSchema) :
    (detect_weak_entities_and_aggregation s).1.skel = s.skel := by
  rw [detect_weak_char]
  show (s.tables.map weakTableFn).map Table.skel = s.tables.map Table.skel
  rw [List.map_map]
  apply List.map_congr_left
  intro t _
  exact weakTableFn_skel t

theorem pass3_skel (s : DatabaseSchema) :
    (infer_relationship_cardinality s).skel = s.skel := by
  show (s.tables.map _).map Table.skel = s.tables.map Table.skel
  rw [List.map_map]
  apply List.map_congr_left
  intro t _
  show TableSkel.mk _ _ _ _ ((t.foreign_keys.map (inferFkCardinality t)).map
    ForeignKey.skel) = _
  rw [List.map_map]
  have : (ForeignKey.skel ∘ inferFkCardinality t) = ForeignKey.skel := by
    funext fk
    exact inferFkCardinality_skel t fk
  rw [this]
  rfl

theorem pass4_skel (s : DatabaseSchema) :
    (generate_relationship_names s).skel = s.skel := by
  show (s.tables.map _).map Table.skel = s.tables.map Table.skel
  rw [List.map_map]
  apply List.map_congr_left
  intro t _
  show TableSkel.mk _ _ _ _ ((t.foreign_keys.map generateFkName).map
    ForeignKey.skel) = _
  rw [List.map_map]
  have : (ForeignKey.skel ∘ generateFkName) = ForeignKey.skel := by
    funext fk
    exact generateFkName_skel fk
  rw [this]
  rfl

theorem enrichSchema_skel (s : DatabaseSchema) : (enrichSchema s).1.skel = s.skel := by
  show (generate_relationship_names (infer_relationship_cardinality
    (detect_weak_entities_and_aggregation (detect_inheritance_hierarchies s).1).1)).skel
      = s.skel
  rw [pass4_skel, pass3_skel, pass2_skel, pass1_skel]

/-! ## C8: the enricher falls back to defaults and always completes -/

theorem append_nonempty_beq (a b : String) (h : a.data ≠ []) :
    ((a ++ b : String) == "") = false := by
  rw [beq_eq_false_iff_ne]
  intro he
  apply h
  have hd := congrArg String.data he
  rw [String.data_append] at hd
  exact (List.append_eq_nil.mp hd).1

theorem specFkName_nonempty (fk : ForeignKey) : (specFkName fk == "") = false := by
  unfold specFkName
  cases hfind : relationshipVerbs.find? (fun kv =>
      pyIn kv.1 (pyReplace (pyReplace (pyLower fk.column) "_id" "") "id" "") ||
      pyIn kv.1 (pyLower fk.referenced_table)) with
  | some kv =>
    simp only [hfind]
    have hmem := List.mem_of_find?_eq_some hfind
    have hall : relationshipVerbs.all (fun kv => !(kv.2 == "")) = true := by decide
    have hne := List.all_eq_true.mp hall kv hmem
    simpa using hne
  | none =>
    simp only [hfind]
    by_cases hag : fk.is_aggregation = true
    · rw [if_pos hag]
      exact append_nonempty_beq _ _ (by decide)
    · rw [if_neg hag]
      exact append_nonempty_beq _ _ (by decide)

theorem generateFkName_truthy (fk : ForeignKey) :
    pyTruthy (generateFkName fk).relationship_name = true := by
  cases hb : pyTruthy fk.relationship_name with
  | true =>
    unfold generateFkName
    rw [if_pos hb]
    exact hb
  | false =>
    rw [generateFkName_eq fk hb]
    show (!(specFkName fk == "")) = true
    rw [specFkName_nonempty]
    rfl

theorem generateFkName_cardinality (fk : ForeignKey) :
    (generateFkName fk).cardinality = fk.cardinality := by
  cases hb : pyTruthy fk.relationship_name with
  | true =>
    unfold generateFkName
    rw [if_pos hb]
  | false =>
    rw [generateFkName_eq fk hb]

theorem inferFkCardinality_truthy (t : Table) (fk : ForeignKey) :
    pyTruthy (inferFkCardinality t fk).cardinality = true := by
  unfold inferFkCardinality
  by_cases h1 : pyTruthy fk.cardinality = true
  · rw [if_pos h1]
    exact h1
  · rw [if_neg h1]
    by_cases h2 : (fkSingleUniqueIndex t fk || fkIsWholePk t fk) = true
    · rw [if_pos h2]
      show pyTruthy (some "1:1") = true
      decide
    · rw [if_neg h2]
      show pyTruthy (some "N:1") = true
      decide

/-- C8: the enricher is total on every well-typed schema (the embedding of
`SemanticEnricher.enrich` is a plain function, mirroring the guards the
source places around every lookup), and the claimed defaults hold: a
cardinality string that is none of the four known forms parses to
`MANY_TO_ONE`, and after passes 1–4 every foreign key of every table in the
enriched schema carries a Python-truthy cardinality string and a
Python-truthy relationship name (so the relationship-building passes find
no missing data and the run completes, returning a conceptual model). -/
theorem c8_enricher_totality (s : DatabaseSchema) (c : String)
    (h1 : c ≠ "1:1") (h2 : c ≠ "1:N") (h3 : c ≠ "N:1") (h4 : c ≠ "N:M") :
    parse_cardinality c = RelationshipCardinality.MANY_TO_ONE ∧
    (∀ (k : Nat) (t : Table), (enrichSchema s).1.tables[k]? = some t →
      ∀ (j : Nat) (fk : ForeignKey), t.foreign_keys[j]? = some fk →
        pyTruthy fk.cardinality = true ∧ pyTruthy fk.relationship_name = true) := by
  constructor
  · unfold parse_cardinality
    rw [if_neg (by simpa using h1), if_neg (by simpa using h2),
      if_neg (by simpa using h3), if_neg (by simpa using h4)]
  · intro k t ht j fk hfk
    have hmap : (enrichSchema s).1.tables
        = ((detect_weak_entities_and_aggregation
              (detect_inheritance_hierarchies s).1).1.tables.map
            (fun t0 => { t0 with
                         foreign_keys := t0.foreign_keys.map (inferFkCardinality t0) })).map
            (fun t0 => { t0 with foreign_keys := t0.foreign_keys.map generateFkName }) := rfl
    rw [hmap, List.getElem?_map, List.getElem?_map] at ht
    cases h0 : (detect_weak_entities_and_aggregation
        (detect_inheritance_hierarchies s).1).1.tables[k]? with
    | none =>
      rw [h0] at ht
      simp at ht
    | some t0 =>
      rw [h0] at ht
      have ht2 : t = { t0 with
          foreign_keys := (t0.foreign_keys.map (inferFkCardinality t0)).map generateFkName } := by
        have := ht
        simp only [Option.map_some] at this
        injection this with h
        exact h.symm
      have hfk2 : ((t0.foreign_keys.map (inferFkCardinality t0)).map
          generateFkName)[j]? = some fk := by
        rw [ht2] at hfk
        exact hfk
      rw [List.getElem?_map, List.getElem?_map] at hfk2
      cases hf0 : t0.foreign_keys[j]? with
      | none =>
        rw [hf0] at hfk2
        simp at hfk2
      | some fk0 =>
        rw [hf0] at hfk2
        have h5 : (some (generateFkName (inferFkCardinality t0 fk0)) : Option ForeignKey)
            = some fk := hfk2
        injection h5 with hfk3
        rw [← hfk3]
        constructor
        · rw [generateFkName_cardinality]
          exact inferFkCardinality_truthy t0 fk0
        · exact generateFkName_truthy _

/-! ## C3: inheritance detection (pass 1) -/

theorem inheritanceFkUpdate_idem (fk : ForeignKey) :
    inheritanceFkUpdate (inheritanceFkUpdate fk) = inheritanceFkUpdate fk := rfl

theorem chainAfter_add (hs : List (List String)) (a b : String) :
    ChainAfter (add_to_hierarchy hs a b) a b := by
  induction hs with
  | nil =>
    exact ⟨[a, b], by simp [add_to_hierarchy], 0, 1, by decide, rfl, rfl⟩
  | cons hd rest ih =>
    unfold add_to_hierarchy
    by_cases hc : hd.contains a = true
    · rw [if_pos hc]
      have hm := List.mem_of_elem_eq_true hc
      obtain ⟨p, hp, he⟩ := List.mem_iff_getElem.mp hm
      refine ⟨hd ++ [b], by simp, p, hd.length, hp, ?_, by simp⟩
      rw [List.getElem?_append_left hp, List.getElem?_eq_getElem hp, he]
    · rw [if_neg hc]
      obtain ⟨ch, hch, p, q, hpq, hpa, hqb⟩ := ih
      exact ⟨ch, List.mem_cons_of_mem hd hch, p, q, hpq, hpa, hqb⟩

theorem chainAfter_mono (hs : List (List String)) (x y a b : String)
    (h : ChainAfter hs a b) : ChainAfter (add_to_hierarchy hs x y) a b := by
  induction hs with
  | nil =>
    obtain ⟨ch, hch, _⟩ := h
    simp at hch
  | cons hd rest ih =>
    obtain ⟨ch, hch, p, q, hpq, hpa, hqb⟩ := h
    unfold add_to_hierarchy
    by_cases hc : hd.contains x = true
    · rw [if_pos hc]
      rcases List.mem_cons.mp hch with he | he
      · subst he
        refine ⟨_, List.mem_cons_self _ _, p, q, hpq, ?_, ?_⟩
        · rw [List.getElem?_append_left (List.getElem?_eq_some.mp hpa).1]
          exact hpa
        · rw [List.getElem?_append_left (List.getElem?_eq_some.mp hqb).1]
          exact hqb
      · exact ⟨ch, List.mem_cons_of_mem _ he, p, q, hpq, hpa, hqb⟩
    · rw [if_neg hc]
      rcases List.mem_cons.mp hch with he | he
      · exact ⟨ch, he ▸ List.mem_cons_self _ _, p, q, hpq, hpa, hqb⟩
      · obtain ⟨ch2, hch2, p2, q2, hpq2, hpa2, hqb2⟩ := ih ⟨ch, he, p, q, hpq, hpa, hqb⟩
        exact ⟨ch2, List.mem_cons_of_mem _ hch2, p2, q2, hpq2, hpa2, hqb2⟩

theorem detectInheritanceFk_chain (tname : String) (pkCols : List String)
    (st : Pass1State) (k : Nat) (a b : String)
    (h : ChainAfter st.2 a b) :
    ChainAfter (detectInheritanceFk tname pkCols st k).2 a b := by
  unfold detectInheritanceFk
  split
  · exact h
  rename_i w hgt
  split
  · exact h
  rename_i fk1 hfk1
  split
  · split
    · exact h
    rename_i rt1 hrt1
    split
    · exact h
    rename_i rpk1 hrpk1
    split
    · exact chainAfter_mono _ _ _ _ _ h
    · exact h
  · exact h

theorem detectInheritanceTable_chain (st : Pass1State) (n : String) (a b : String)
    (h : ChainAfter st.2 a b) :
    ChainAfter (detectInheritanceTable st n).2 a b := by
  unfold detectInheritanceTable
  split
  · exact h
  rename_i w hgt
  split
  · exact h
  rename_i pk hpk
  split
  · exact h
  · exact foldl_preserve (P := fun st2 : Pass1State => ChainAfter st2.2 a b)
      (fun a2 b2 _ h2 => detectInheritanceFk_chain n pk.columns a2 b2 a b h2) st h

theorem find?_name_skel : ∀ (l2 l : List Table), l2.map Table.skel = l.map Table.skel →
    ∀ (n : String) (rt : Table), l.find? (fun x => x.name == n) = some rt →
      ∃ rt2 : Table, l2.find? (fun x => x.name == n) = some rt2 ∧ rt2.skel = rt.skel
  | _, [], _, n, rt, hf => by simp at hf
  | [], v :: vs, hmap, _, _, _ => by simp at hmap
  | u :: us, v :: vs, hmap, n, rt, hf => by
    rw [List.map_cons, List.map_cons] at hmap
    injection hmap with h1 h2
    have hname : u.name = v.name := skel_name h1
    by_cases hv : (v.name == n) = true
    · rw [List.find?_cons_of_pos (p := fun x : Table => x.name == n) _ hv] at hf
      injection hf with hf
      refine ⟨u, ?_, hf ▸ h1⟩
      rw [List.find?_cons_of_pos (p := fun x : Table => x.name == n) _
        (by show (u.name == n) = true; rw [hname]; exact hv)]
    · rw [List.find?_cons_of_neg (p := fun x : Table => x.name == n) _ hv] at hf
      obtain ⟨rt2, hrt2, hsk⟩ := find?_name_skel us vs h2 n rt hf
      refine ⟨rt2, ?_, hsk⟩
      rw [List.find?_cons_of_neg (p := fun x : Table => x.name == n) _
        (by show ¬(u.name == n) = true; rw [hname]; exact hv)]
      exact hrt2

theorem get_table_skel {s2 s : DatabaseSchema} (h : s2.skel = s.skel) {n : String}
    {rt : Table} (hf : s.get_table n = some rt) :
    ∃ rt2 : Table, s2.get_table n = some rt2 ∧ rt2.skel = rt.skel :=
  find?_name_skel s2.tables s.tables h n rt hf

theorem fkStep_entry_keep (s : DatabaseSchema) (tname : String) (pkCols : List String)
    (st : Pass1State) (k i j : Nat) (v : ForeignKey) (tsk : TableSkel) (sub : Bool)
    (hnodup : (s.tables.map Table.name).Nodup)
    (hsk : st.1.skel = s.skel)
    (hcase : tname ≠ tsk.name ∨ k ≠ j ∨ inheritanceFkUpdate v = v)
    (h : ∃ u : Table, st.1.tables[i]? = some u ∧ u.skel = tsk ∧
      (sub = true → u.is_subclass = true) ∧ u.foreign_keys[j]? = some v) :
    ∃ u : Table, (detectInheritanceFk tname pkCols st k).1.tables[i]? = some u ∧
      u.skel = tsk ∧ (sub = true → u.is_subclass = true) ∧
      u.foreign_keys[j]? = some v := by
  obtain ⟨u, hu, husk, hsub, hufk⟩ := h
  have hun : u.name = tsk.name := congrArg TableSkel.name husk
  unfold detectInheritanceFk
  split
  · exact ⟨u, hu, husk, hsub, hufk⟩
  rename_i w hgt
  split
  · exact ⟨u, hu, husk, hsub, hufk⟩
  rename_i fk1 hfk1
  split
  · split
    · exact ⟨u, hu, husk, hsub, hufk⟩
    rename_i rt1 hrt1
    split
    · exact ⟨u, hu, husk, hsub, hufk⟩
    rename_i rpk1 hrpk1
    split
    · show ∃ u2 : Table, (updateTableList (updateTableList st.1.tables tname
          (fun tb => { tb with is_subclass := true,
                               superclass_table := some fk1.referenced_table,
                               foreign_keys := tb.foreign_keys.set k
                                 (inheritanceFkUpdate fk1) }))
          fk1.referenced_table (fun tb => { tb with is_superclass := true }))[i]?
            = some u2 ∧
          u2.skel = tsk ∧ (sub = true → u2.is_subclass = true) ∧
          u2.foreign_keys[j]? = some v
      by_cases htn : tname = u.name
      · have nodup1 : (st.1.tables.map Table.name).Nodup := by
          rw [schema_names_of_skel hsk]
          exact hnodup
        have e1 : st.1.get_table u.name = some u := find?_name_of_nodup hu nodup1
        rw [htn, e1] at hgt
        injection hgt with hgt
        subst hgt
        obtain ⟨m1, m2, hdec, hlenm, hm1, hm2⟩ := nodup_name_split hu nodup1
        have hm1a : ∀ x ∈ m1, x.name ≠ tname := by
          intro x hx
          rw [htn]
          exact hm1 x hx
        obtain ⟨uN, huN⟩ : ∃ uN : Table, uN =
            { u with
              is_subclass := true,
              superclass_table := some fk1.referenced_table,
              foreign_keys := u.foreign_keys.set k (inheritanceFkUpdate fk1) } :=
          ⟨_, rfl⟩
        have hfirst : updateTableList st.1.tables tname
            (fun tb => { tb with is_subclass := true,
                                 superclass_table := some fk1.referenced_table,
                                 foreign_keys := tb.foreign_keys.set k
                                   (inheritanceFkUpdate fk1) })
            = m1 ++ uN :: m2 := by
          rw [hdec, huN]
          exact updateTableList_first m1 m2 _ hm1a htn.symm
        have hentry1 : (m1 ++ uN :: m2)[i]? = some uN := by
          rw [List.getElem?_append_right (by omega : m1.length ≤ i)]
          rw [show i - m1.length = 0 from by omega]
          simp
        have hskN : uN.skel = tsk := by
          rw [huN]
          have hset : (u.foreign_keys.set k (inheritanceFkUpdate fk1)).map ForeignKey.skel
              = u.foreign_keys.map ForeignKey.skel := by
            rw [List.map_set]
            apply set_getElem_self
            rw [List.getElem?_map, hfk1]
            rfl
          show TableSkel.mk _ _ _ _ ((u.foreign_keys.set k
            (inheritanceFkUpdate fk1)).map ForeignKey.skel) = tsk
          rw [hset]
          exact husk
        have hsubN : uN.is_subclass = true := by rw [huN]
        have hfkN : uN.foreign_keys[j]? = some v := by
          rw [huN]
          show (u.foreign_keys.set k (inheritanceFkUpdate fk1))[j]? = some v
          by_cases hkj : k = j
          · have hv1 : fk1 = v := by
              rw [hkj, hufk] at hfk1
              exact (Option.some.inj hfk1).symm
            rcases hcase with hc | hc | hc
            · exact absurd (htn.trans hun) hc
            · exact absurd hkj hc
            · rw [hkj, hv1, hc, set_getElem_self hufk]
              exact hufk
          · rw [List.getElem?_set_ne hkj]
            exact hufk
        rw [hfirst]
        rcases updateTableList_getElem_super (n := fk1.referenced_table) hentry1 with h2 | h2
        · exact ⟨_, h2, hskN, fun _ => hsubN, hfkN⟩
        · exact ⟨_, h2, hskN, fun _ => hsubN, hfkN⟩
      · have h1 := updateTableList_getElem_ne (n := tname)
          (f := fun tb =>
            { tb with
              is_subclass := true,
              superclass_table := some fk1.referenced_table,
              foreign_keys := tb.foreign_keys.set k (inheritanceFkUpdate fk1) })
          hu (fun hc => htn hc.symm)
        rcases updateTableList_getElem_super (n := fk1.referenced_table) h1 with h2 | h2
        · exact ⟨u, h2, husk, hsub, hufk⟩
        · exact ⟨_, h2, husk, hsub, hufk⟩
    · exact ⟨u, hu, husk, hsub, hufk⟩
  · exact ⟨u, hu, husk, hsub, hufk⟩

theorem fkStep_fire (s : DatabaseSchema) (st : Pass1State) (i j : Nat) (t u : Table)
    (tpk : PrimaryKey) (fk : ForeignKey) (rt2 : Table) (rpk : PrimaryKey)
    (hnodup : (s.tables.map Table.name).Nodup)
    (hsk : st.1.skel = s.skel)
    (hu : st.1.tables[i]? = some u) (husk : u.skel = t.skel)
    (hufk : u.foreign_keys[j]? = some fk)
    (e3 : tpk.columns.contains fk.column = true)
    (e4 : st.1.get_table fk.referenced_table = some rt2)
    (e5 : rt2.primary_key = some rpk)
    (e6 : rpk.columns.contains fk.referenced_column = true) :
    (detectInheritanceFk t.name tpk.columns st j).1.skel = s.skel ∧
    (∃ u2 : Table, (detectInheritanceFk t.name tpk.columns st j).1.tables[i]? = some u2 ∧
      u2.skel = t.skel ∧ u2.is_subclass = true ∧
      u2.foreign_keys[j]? = some (inheritanceFkUpdate fk)) ∧
    ChainAfter (detectInheritanceFk t.name tpk.columns st j).2
      fk.referenced_table t.name := by
  have nodup1 : (st.1.tables.map Table.name).Nodup := by
    rw [schema_names_of_skel hsk]
    exact hnodup
  have e1 : st.1.get_table t.name = some u := by
    have h0 := find?_name_of_nodup hu nodup1
    rw [skel_name husk] at h0
    exact h0
  have hstep : detectInheritanceFk t.name tpk.columns st j
      = ((st.1.updateTable t.name
          (fun tb =>
            { tb with
              is_subclass := true,
              superclass_table := some fk.referenced_table,
              foreign_keys := tb.foreign_keys.set j (inheritanceFkUpdate fk) })).updateTable
          fk.referenced_table (fun tb => { tb with is_superclass := true }),
        add_to_hierarchy st.2 fk.referenced_table t.name) := by
    unfold detectInheritanceFk
    split
    · rename_i hgt0
      rw [e1] at hgt0
      simp at hgt0
    rename_i w hgt
    rw [e1] at hgt
    injection hgt with hgt
    subst hgt
    split
    · rename_i h0
      rw [hufk] at h0
      simp at h0
    rename_i fk1 hfk1
    rw [hufk] at hfk1
    injection hfk1 with hfk1
    subst hfk1
    split
    · split
      · rename_i h0
        rw [e4] at h0
        simp at h0
      rename_i rt3 hrt3
      rw [e4] at hrt3
      injection hrt3 with hrt3
      subst hrt3
      split
      · rename_i h0
        rw [e5] at h0
        simp at h0
      rename_i rpk1 hrpk1
      rw [e5] at hrpk1
      injection hrpk1 with hrpk1
      subst hrpk1
      split
      · rfl
      · rename_i h0
        exact absurd e6 h0
    · rename_i h0
      exact absurd e3 h0
  refine ⟨?_, ?_, ?_⟩
  · rw [detectInheritanceFk_skel]
    exact hsk
  · rw [hstep]
    show ∃ u2 : Table, (updateTableList (updateTableList st.1.tables t.name
        (fun tb =>
          { tb with
            is_subclass := true,
            superclass_table := some fk.referenced_table,
            foreign_keys := tb.foreign_keys.set j (inheritanceFkUpdate fk) }))
        fk.referenced_table (fun tb => { tb with is_superclass := true }))[i]?
          = some u2 ∧
        u2.skel = t.skel ∧ u2.is_subclass = true ∧
        u2.foreign_keys[j]? = some (inheritanceFkUpdate fk)
    obtain ⟨m1, m2, hdec, hlenm, hm1, hm2⟩ := nodup_name_split hu nodup1
    obtain ⟨uN, huN⟩ : ∃ uN : Table, uN =
        { u with
          is_subclass := true,
          superclass_table := some fk.referenced_table,
          foreign_keys := u.foreign_keys.set j (inheritanceFkUpdate fk) } :=
      ⟨_, rfl⟩
    have hm1a : ∀ x ∈ m1, x.name ≠ t.name := by
      intro x hx
      rw [← skel_name husk]
      exact hm1 x hx
    have hfirst : updateTableList st.1.tables t.name
        (fun tb =>
          { tb with
            is_subclass := true,
            superclass_table := some fk.referenced_table,
            foreign_keys := tb.foreign_keys.set j (inheritanceFkUpdate fk) })
        = m1 ++ uN :: m2 := by
      rw [hdec, huN]
      exact updateTableList_first m1 m2 _ hm1a (skel_name husk)
    have hentry1 : (m1 ++ uN :: m2)[i]? = some uN := by
      rw [List.getElem?_append_right (by omega : m1.length ≤ i)]
      rw [show i - m1.length = 0 from by omega]
      simp
    have hskN : uN.skel = t.skel := by
      rw [huN]
      have hset : (u.foreign_keys.set j (inheritanceFkUpdate fk)).map ForeignKey.skel
          = u.foreign_keys.map ForeignKey.skel := by
        rw [List.map_set]
        apply set_getElem_self
        rw [List.getElem?_map, hufk]
        rfl
      show TableSkel.mk _ _ _ _ ((u.foreign_keys.set j
        (inheritanceFkUpdate fk)).map ForeignKey.skel) = t.skel
      rw [hset]
      exact husk
    have hsubN : uN.is_subclass = true := by rw [huN]
    have hfkN : uN.foreign_keys[j]? = some (inheritanceFkUpdate fk) := by
      rw [huN]
      show (u.foreign_keys.set j (inheritanceFkUpdate fk))[j]? = _
      exact List.getElem?_set_eq (List.getElem?_eq_some.mp hufk).1
    rw [hfirst]
    rcases updateTableList_getElem_super (n := fk.referenced_table) hentry1 with h2 | h2
    · exact ⟨_, h2, hskN, hsubN, hfkN⟩
    · exact ⟨_, h2, hskN, hsubN, hfkN⟩
  · rw [hstep]
    exact chainAfter_add st.2 fk.referenced_table t.name

theorem fkStep_keep (s : DatabaseSchema) (tname : String) (pkCols : List String)
    (st : Pass1State) (k i j : Nat) (v : ForeignKey) (tsk : TableSkel) (sub : Bool)
    (a b : String)
    (hnodup : (s.tables.map Table.name).Nodup)
    (hcase : tname ≠ tsk.name ∨ k ≠ j ∨ inheritanceFkUpdate v = v)
    (h : st.1.skel = s.skel ∧ (∃ u : Table, st.1.tables[i]? = some u ∧ u.skel = tsk ∧
        (sub = true → u.is_subclass = true) ∧ u.foreign_keys[j]? = some v) ∧
      (sub = true → ChainAfter st.2 a b)) :
    (detectInheritanceFk tname pkCols st k).1.skel = s.skel ∧
    (∃ u : Table, (detectInheritanceFk tname pkCols st k).1.tables[i]? = some u ∧
      u.skel = tsk ∧ (sub = true → u.is_subclass = true) ∧
      u.foreign_keys[j]? = some v) ∧
    (sub = true → ChainAfter (detectInheritanceFk tname pkCols st k).2 a b) :=
  ⟨by rw [detectInheritanceFk_skel]; exact h.1,
   fkStep_entry_keep s tname pkCols st k i j v tsk sub hnodup h.1 hcase h.2.1,
   fun hs => detectInheritanceFk_chain tname pkCols st k a b (h.2.2 hs)⟩

theorem tableStep_keep (s : DatabaseSchema) (n : String) (st : Pass1State)
    (i j : Nat) (v : ForeignKey) (tsk : TableSkel) (sub : Bool) (a b : String)
    (hnodup : (s.tables.map Table.name).Nodup)
    (hcase : n ≠ tsk.name ∨ inheritanceFkUpdate v = v)
    (h : st.1.skel = s.skel ∧ (∃ u : Table, st.1.tables[i]? = some u ∧ u.skel = tsk ∧
        (sub = true → u.is_subclass = true) ∧ u.foreign_keys[j]? = some v) ∧
      (sub = true → ChainAfter st.2 a b)) :
    (detectInheritanceTable st n).1.skel = s.skel ∧
    (∃ u : Table, (detectInheritanceTable st n).1.tables[i]? = some u ∧
      u.skel = tsk ∧ (sub = true → u.is_subclass = true) ∧
      u.foreign_keys[j]? = some v) ∧
    (sub = true → ChainAfter (detectInheritanceTable st n).2 a b) := by
  unfold detectInheritanceTable
  split
  · exact h
  rename_i w hgt
  split
  · exact h
  rename_i pk hpk
  split
  · exact h
  · exact foldl_preserve
      (P := fun st2 : Pass1State => st2.1.skel = s.skel ∧
        (∃ u : Table, st2.1.tables[i]? = some u ∧ u.skel = tsk ∧
          (sub = true → u.is_subclass = true) ∧ u.foreign_keys[j]? = some v) ∧
        (sub = true → ChainAfter st2.2 a b))
      (fun a2 b2 _ h2 =>
        fkStep_keep s n pk.columns a2 b2 i j v tsk sub a b hnodup
          (hcase.elim Or.inl (fun hc => Or.inr (Or.inr hc))) h2) st h

/-- C3 (amended): for every table `t` (all table names distinct) with a
primary key and a foreign key `fk` whose local column is in the primary
key and whose referenced column lies in the referenced table's primary key
(that table being present and having a primary key): after enrichment `t`
has `is_subclass = true`, that foreign key is `is_inheritance = true` with
cardinality `1:1` and relationship name `IS_A_<REFERENCED_TABLE_UPPER>`,
and some chain of `inheritance_hierarchies` holds `t`'s name at a position
after that foreign key's referenced table.  (Not "exactly one chain": a
table with several qualifying foreign keys is appended to one chain per
key, as `c3_counterexample` shows.) -/
theorem c3_inheritance_detection (s : DatabaseSchema) (i j : Nat) (t : Table)
    (fk : ForeignKey)
    (hnodup : (s.tables.map Table.name).Nodup)
    (ht : s.tables[i]? = some t)
    (hfk : t.foreign_keys[j]? = some fk)
    (hq : fkInheritanceQualifies s t fk = true) :
    ∃ t2 : Table, (enrichSchema s).1.tables[i]? = some t2 ∧
      t2.is_subclass = true ∧
      t2.foreign_keys[j]? = some (inheritanceFkUpdate fk) ∧
      (inheritanceFkUpdate fk).is_inheritance = true ∧
      (inheritanceFkUpdate fk).cardinality = some "1:1" ∧
      (inheritanceFkUpdate fk).relationship_name
        = some ("IS_A_" ++ pyUpper fk.referenced_table) ∧
      ChainAfter (enrichSchema s).2.1 fk.referenced_table t.name := by
  unfold fkInheritanceQualifies at hq
  cases htpk : t.primary_key with
  | none => simp [htpk] at hq
  | some tpk =>
    simp only [htpk] at hq
    rw [Bool.and_eq_true] at hq
    obtain ⟨hc1, hc2⟩ := hq
    cases hrt : s.get_table fk.referenced_table with
    | none => simp [hrt] at hc2
    | some rt =>
      simp only [hrt] at hc2
      cases hrpk : rt.primary_key with
      | none => simp [hrpk] at hc2
      | some rpk =>
        simp only [hrpk] at hc2
        obtain ⟨l1, l2, hdec, hlen1, h1, h2⟩ := nodup_name_split ht hnodup
        have hnames : s.tableNames = l1.map Table.name ++ t.name :: l2.map Table.name := by
          show s.tables.map Table.name = _
          rw [hdec, List.map_append, List.map_cons]
        obtain ⟨stA, hstA⟩ : ∃ stA : Pass1State,
            (l1.map Table.name).foldl detectInheritanceTable ((s, []) : Pass1State)
              = stA := ⟨_, rfl⟩
        have hpass : detect_inheritance_hierarchies s
            = (l2.map Table.name).foldl detectInheritanceTable
                (detectInheritanceTable stA t.name) := by
          unfold detect_inheritance_hierarchies
          rw [hnames, List.foldl_append, List.foldl_cons, hstA]
        have hstepA : ∀ (st2 : Pass1State) (nm : String), nm ∈ l1.map Table.name →
            (st2.1.skel = s.skel ∧ (∃ u : Table, st2.1.tables[i]? = some u ∧
              u.skel = t.skel ∧ (false = true → u.is_subclass = true) ∧
              u.foreign_keys[j]? = some fk) ∧
              (false = true → ChainAfter st2.2 fk.referenced_table t.name)) →
            ((detectInheritanceTable st2 nm).1.skel = s.skel ∧
              (∃ u : Table, (detectInheritanceTable st2 nm).1.tables[i]? = some u ∧
                u.skel = t.skel ∧ (false = true → u.is_subclass = true) ∧
                u.foreign_keys[j]? = some fk) ∧
              (false = true →
                ChainAfter (detectInheritanceTable st2 nm).2 fk.referenced_table t.name)) := by
          intro st2 nm hmem h2a
          obtain ⟨x, hx, hxe⟩ := List.mem_map.mp hmem
          refine tableStep_keep s nm st2 i j fk t.skel false
            fk.referenced_table t.name hnodup (Or.inl ?_) h2a
          rw [← hxe]
          exact h1 x hx
        have hA : stA.1.skel = s.skel ∧ (∃ u : Table, stA.1.tables[i]? = some u ∧
            u.skel = t.skel ∧ (false = true → u.is_subclass = true) ∧
            u.foreign_keys[j]? = some fk) ∧
            (false = true → ChainAfter stA.2 fk.referenced_table t.name) := by
          rw [← hstA]
          exact foldl_preserve hstepA _
            ⟨rfl, ⟨t, ht, rfl, fun hh => absurd hh (by decide), hfk⟩,
             fun hh => absurd hh (by decide)⟩
        obtain ⟨hskA, hEA, _⟩ := hA
        obtain ⟨u1, hu1, husk1, _, hufk1⟩ := hEA
        have nodupA : (stA.1.tables.map Table.name).Nodup := by
          rw [schema_names_of_skel hskA]
          exact hnodup
        have e1A : stA.1.get_table t.name = some u1 := by
          have h0 := find?_name_of_nodup hu1 nodupA
          rw [skel_name husk1] at h0
          exact h0
        have hpkA : u1.primary_key = some tpk := by
          rw [skel_primary_key husk1, htpk]
        have hfkEmpA : u1.foreign_keys.isEmpty = false := by
          cases hfe : u1.foreign_keys with
          | nil =>
            rw [hfe] at hufk1
            simp at hufk1
          | cons a2 as2 => rfl
        have hB : detectInheritanceTable stA t.name
            = (List.range u1.foreign_keys.length).foldl
                (detectInheritanceFk t.name tpk.columns) stA := by
          unfold detectInheritanceTable
          simp only [e1A, hpkA, hfkEmpA, Bool.false_eq_true, if_false]
        have hlenu : u1.foreign_keys.length = t.foreign_keys.length := by
          have hh := congrArg List.length (skel_fks husk1)
          simpa using hh
        have hjlt : j < t.foreign_keys.length := (List.getElem?_eq_some.mp hfk).1
        have hsplitR : List.range t.foreign_keys.length
            = (List.range j ++ [j]) ++ (List.range (t.foreign_keys.length - (j + 1))).map
                (fun x => (j + 1) + x) := by
          rw [← List.range_succ, ← List.range_add]
          congr 1
          omega
        obtain ⟨stB, hstB⟩ : ∃ stB : Pass1State,
            (List.range j).foldl (detectInheritanceFk t.name tpk.columns) stA
              = stB := ⟨_, rfl⟩
        have hstepB1 : ∀ (st2 : Pass1State) (k2 : Nat), k2 ∈ List.range j →
            (st2.1.skel = s.skel ∧ (∃ u : Table, st2.1.tables[i]? = some u ∧
              u.skel = t.skel ∧ (false = true → u.is_subclass = true) ∧
              u.foreign_keys[j]? = some fk) ∧
              (false = true → ChainAfter st2.2 fk.referenced_table t.name)) →
            ((detectInheritanceFk t.name tpk.columns st2 k2).1.skel = s.skel ∧
              (∃ u : Table,
                (detectInheritanceFk t.name tpk.columns st2 k2).1.tables[i]? = some u ∧
                u.skel = t.skel ∧ (false = true → u.is_subclass = true) ∧
                u.foreign_keys[j]? = some fk) ∧
              (false = true → ChainAfter (detectInheritanceFk t.name tpk.columns st2 k2).2
                fk.referenced_table t.name)) :=
          fun st2 k2 hmem h2a =>
            fkStep_keep s t.name tpk.columns st2 k2 i j fk t.skel false
              fk.referenced_table t.name hnodup
              (Or.inr (Or.inl (Nat.ne_of_lt (List.mem_range.mp hmem)))) h2a
        have hB1 : stB.1.skel = s.skel ∧ (∃ u : Table, stB.1.tables[i]? = some u ∧
            u.skel = t.skel ∧ (false = true → u.is_subclass = true) ∧
            u.foreign_keys[j]? = some fk) ∧
            (false = true → ChainAfter stB.2 fk.referenced_table t.name) := by
          rw [← hstB]
          exact foldl_preserve hstepB1 stA
            ⟨hskA, ⟨u1, hu1, husk1, fun hh => absurd hh (by decide), hufk1⟩,
             fun hh => absurd hh (by decide)⟩
        obtain ⟨hskB, hEB, _⟩ := hB1
        obtain ⟨u2, hu2, husk2, _, hufk2⟩ := hEB
        obtain ⟨rtB, hrtB, hrtskB⟩ := get_table_skel hskB hrt
        have hrpkB : rtB.primary_key = some rpk := by
          rw [skel_primary_key hrtskB, hrpk]
        have hfire := fkStep_fire s stB i j t u2 tpk fk rtB rpk hnodup hskB hu2 husk2
          hufk2 hc1 hrtB hrpkB hc2
        obtain ⟨stJ, hstJ⟩ : ∃ stJ : Pass1State,
            detectInheritanceFk t.name tpk.columns stB j = stJ := ⟨_, rfl⟩
        rw [hstJ] at hfire
        obtain ⟨u3, h3a, h3b, h3c, h3d⟩ := hfire.2.1
        have hQJ : stJ.1.skel = s.skel ∧ (∃ u : Table, stJ.1.tables[i]? = some u ∧
            u.skel = t.skel ∧ (true = true → u.is_subclass = true) ∧
            u.foreign_keys[j]? = some (inheritanceFkUpdate fk)) ∧
            (true = true → ChainAfter stJ.2 fk.referenced_table t.name) :=
          ⟨hfire.1, ⟨u3, h3a, h3b, fun _ => h3c, h3d⟩, fun _ => hfire.2.2⟩
        have hstepQ : ∀ (st2 : Pass1State) (k2 : Nat),
            k2 ∈ (List.range (t.foreign_keys.length - (j + 1))).map
              (fun x => (j + 1) + x) →
            (st2.1.skel = s.skel ∧ (∃ u : Table, st2.1.tables[i]? = some u ∧
              u.skel = t.skel ∧ (true = true → u.is_subclass = true) ∧
              u.foreign_keys[j]? = some (inheritanceFkUpdate fk)) ∧
              (true = true → ChainAfter st2.2 fk.referenced_table t.name)) →
            ((detectInheritanceFk t.name tpk.columns st2 k2).1.skel = s.skel ∧
              (∃ u : Table,
                (detectInheritanceFk t.name tpk.columns st2 k2).1.tables[i]? = some u ∧
                u.skel = t.skel ∧ (true = true → u.is_subclass = true) ∧
                u.foreign_keys[j]? = some (inheritanceFkUpdate fk)) ∧
              (true = true → ChainAfter (detectInheritanceFk t.name tpk.columns st2 k2).2
                fk.referenced_table t.name)) :=
          fun st2 k2 _ h2a =>
            fkStep_keep s t.name tpk.columns st2 k2 i j (inheritanceFkUpdate fk) t.skel
              true fk.referenced_table t.name hnodup
              (Or.inr (Or.inr (inheritanceFkUpdate_idem fk))) h2a
        have hB2 := foldl_preserve hstepQ stJ hQJ
        have hFoldB : detectInheritanceTable stA t.name
            = ((List.range (t.foreign_keys.length - (j + 1))).map
                (fun x => (j + 1) + x)).foldl
                (detectInheritanceFk t.name tpk.columns) stJ := by
          rw [hB, hlenu, hsplitR, List.foldl_append, List.foldl_append, List.foldl_cons,
            List.foldl_nil, hstB, hstJ]
        have hstepC : ∀ (st2 : Pass1State) (nm : String), nm ∈ l2.map Table.name →
            (st2.1.skel = s.skel ∧ (∃ u : Table, st2.1.tables[i]? = some u ∧
              u.skel = t.skel ∧ (true = true → u.is_subclass = true) ∧
              u.foreign_keys[j]? = some (inheritanceFkUpdate fk)) ∧
              (true = true → ChainAfter st2.2 fk.referenced_table t.name)) →
            ((detectInheritanceTable st2 nm).1.skel = s.skel ∧
              (∃ u : Table, (detectInheritanceTable st2 nm).1.tables[i]? = some u ∧
                u.skel = t.skel ∧ (true = true → u.is_subclass = true) ∧
                u.foreign_keys[j]? = some (inheritanceFkUpdate fk)) ∧
              (true = true → ChainAfter (detectInheritanceTable st2 nm).2
                fk.referenced_table t.name)) :=
          fun st2 nm _ h2a =>
            tableStep_keep s nm st2 i j (inheritanceFkUpdate fk) t.skel true
              fk.referenced_table t.name hnodup
              (Or.inr (inheritanceFkUpdate_idem fk)) h2a
        have hP1 : (detect_inheritance_hierarchies s).1.skel = s.skel ∧
            (∃ u : Table, (detect_inheritance_hierarchies s).1.tables[i]? = some u ∧
              u.skel = t.skel ∧ (true = true → u.is_subclass = true) ∧
              u.foreign_keys[j]? = some (inheritanceFkUpdate fk)) ∧
            (true = true → ChainAfter (detect_inheritance_hierarchies s).2
              fk.referenced_table t.name) := by
          rw [hpass, hFoldB]
          exact foldl_preserve hstepC _ hB2
        obtain ⟨hskF, hEF, hCF⟩ := hP1
        obtain ⟨uF, huF, huskF, hsubF, hfkF⟩ := hEF
        have hw : weakTableFn uF = uF := by
          unfold weakTableFn
          rw [if_pos (hsubF rfl)]
        have hcond3 : pyTruthy (inheritanceFkUpdate fk).cardinality = true := by
          show pyTruthy (some "1:1") = true
          decide
        have h3 : inferFkCardinality uF (inheritanceFkUpdate fk)
            = inheritanceFkUpdate fk := by
          unfold inferFkCardinality
          rw [if_pos hcond3]
        have hcond4 : pyTruthy (inheritanceFkUpdate fk).relationship_name = true := by
          show (!(("IS_A_" ++ pyUpper fk.referenced_table) == "")) = true
          rw [append_nonempty_beq _ _ (by decide)]
          rfl
        have h4 : generateFkName (inheritanceFkUpdate fk) = inheritanceFkUpdate fk := by
          unfold generateFkName
          rw [if_pos hcond4]
        obtain ⟨tF, htF⟩ : ∃ tF : Table, tF =
            { uF with
              foreign_keys :=
                (uF.foreign_keys.map (inferFkCardinality uF)).map generateFkName } :=
          ⟨_, rfl⟩
        have hmapE : (enrichSchema s).1.tables
            = (((detect_inheritance_hierarchies s).1.tables.map weakTableFn).map
                (fun t0 => { t0 with
                             foreign_keys :=
                               t0.foreign_keys.map (inferFkCardinality t0) })).map
                (fun t0 => { t0 with
                             foreign_keys := t0.foreign_keys.map generateFkName }) := by
          show (generate_relationship_names (infer_relationship_cardinality
              (detect_weak_entities_and_aggregation
                (detect_inheritance_hierarchies s).1).1)).tables = _
          rw [detect_weak_char]
          rfl
        have hentryF : (enrichSchema s).1.tables[i]? = some tF := by
          rw [hmapE, List.getElem?_map, List.getElem?_map, List.getElem?_map, huF]
          simp only [Option.map_some']
          rw [hw, htF]
        have hsubT : tF.is_subclass = true := by
          rw [htF]
          show uF.is_subclass = true
          exact hsubF rfl
        have hfkT : tF.foreign_keys[j]? = some (inheritanceFkUpdate fk) := by
          rw [htF]
          show ((uF.foreign_keys.map (inferFkCardinality uF)).map generateFkName)[j]?
            = some (inheritanceFkUpdate fk)
          rw [List.getElem?_map, List.getElem?_map, hfkF]
          simp only [Option.map_some']
          rw [h3, h4]
        exact ⟨tF, hentryF, hsubT, hfkT, rfl, rfl, rfl, hCF rfl⟩

/-- Witness for `c3_inheritance_detection`: the `enrollments` table's
first foreign key (`student_id → students.id`) of the scenario schema —
its local column is part of the `(student_id, course_id)` primary key and
it references the primary key of `students`. -/
theorem c3_inheritance_detection_witness :
    ∃ t2 : Table, (enrichSchema scenarioSchema).1.tables[3]? = some t2 ∧
      t2.is_subclass = true ∧
      t2.foreign_keys[0]? = some (inheritanceFkUpdate enrollStudentFk) ∧
      (inheritanceFkUpdate enrollStudentFk).is_inheritance = true ∧
      (inheritanceFkUpdate enrollStudentFk).cardinality = some "1:1" ∧
      (inheritanceFkUpdate enrollStudentFk).relationship_name
        = some ("IS_A_" ++ pyUpper enrollStudentFk.referenced_table) ∧
      ChainAfter (enrichSchema scenarioSchema).2.1 enrollStudentFk.referenced_table
        enrollmentsTable.name :=
  c3_inheritance_detection scenarioSchema 3 0 enrollmentsTable enrollStudentFk
    (by decide) rfl rfl (by decide)

/-- Counterexample to C3 as stated.  In the scenario schema both foreign
keys of `enrollments` qualify for the inheritance pattern (each local
column is part of the primary key and references a primary key), so pass 1
appends `enrollments` to a chain per foreign key: it appears in two chains
of `inheritance_hierarchies`, not exactly one. -/
theorem c3_counterexample :
    (enrichSchema scenarioSchema).2.1
      = [["students", "enrollments"], ["courses", "enrollments"]] ∧
    ((enrichSchema scenarioSchema).2.1.filter
      (fun ch => ch.contains "enrollments")).length = 2 ∧
    (2 : Nat) ≠ 1 :=
  ⟨rfl, rfl, by decide⟩

/-! ## C2: junction tables — character-level facts about the name mangling -/

theorem toNat_ofNat_valid (n : Nat) (h : n.isValidChar) : (Char.ofNat n).toNat = n := by
  rw [Char.ofNat, dif_pos h]
  rfl

theorem isUpper_toNat {c : Char} (h : c.isUpper = true) : 65 ≤ c.toNat ∧ c.toNat ≤ 90 := by
  unfold Char.isUpper at h
  rw [Bool.and_eq_true, decide_eq_true_eq, decide_eq_true_eq] at h
  exact ⟨h.1, h.2⟩

theorem isLower_toNat {c : Char} (h : c.isLower = true) : 97 ≤ c.toNat ∧ c.toNat ≤ 122 := by
  unfold Char.isLower at h
  rw [Bool.and_eq_true, decide_eq_true_eq, decide_eq_true_eq] at h
  exact ⟨h.1, h.2⟩

theorem isUpper_of_toNat {c : Char} (h1 : 65 ≤ c.toNat) (h2 : c.toNat ≤ 90) :
    c.isUpper = true := by
  unfold Char.isUpper
  rw [Bool.and_eq_true, decide_eq_true_eq, decide_eq_true_eq]
  exact ⟨h1, h2⟩

theorem isLower_of_toNat {c : Char} (h1 : 97 ≤ c.toNat) (h2 : c.toNat ≤ 122) :
    c.isLower = true := by
  unfold Char.isLower
  rw [Bool.and_eq_true, decide_eq_true_eq, decide_eq_true_eq]
  exact ⟨h1, h2⟩

theorem isLower_false_of_isUpper {c : Char} (h : c.isUpper = true) : c.isLower = false := by
  obtain ⟨h1, h2⟩ := isUpper_toNat h
  cases hl : c.isLower with
  | false => rfl
  | true =>
    obtain ⟨g1, g2⟩ := isLower_toNat hl
    omega

theorem alpha_toNat {c : Char} (h : c.isAlpha = true) :
    (65 ≤ c.toNat ∧ c.toNat ≤ 90) ∨ (97 ≤ c.toNat ∧ c.toNat ≤ 122) := by
  unfold Char.isAlpha at h
  rw [Bool.or_eq_true] at h
  rcases h with h | h
  · exact Or.inl (isUpper_toNat h)
  · exact Or.inr (isLower_toNat h)

theorem char_ne_space_of_toNat {c : Char} (h : c.toNat ≠ 32) : (c == ' ') = false := by
  rw [beq_eq_false_iff_ne]
  intro he
  apply h
  rw [he]
  decide

theorem alpha_ne_space {c : Char} (h : c.isAlpha = true) : (c == ' ') = false := by
  apply char_ne_space_of_toNat
  rcases alpha_toNat h with ⟨h1, h2⟩ | ⟨h1, h2⟩
  · omega
  · omega

theorem asciiLower_toNat_ne_space {c : Char} (h : c.isAlpha = true) :
    (asciiLowerChar c).toNat ≠ 32 := by
  unfold asciiLowerChar
  by_cases hu : c.isUpper = true
  · rw [if_pos hu]
    obtain ⟨h1, h2⟩ := isUpper_toNat hu
    have hv : (c.toNat + 32).isValidChar := Or.inl (by omega)
    rw [toNat_ofNat_valid _ hv]
    omega
  · rw [if_neg hu]
    rcases alpha_toNat h with ⟨h1, h2⟩ | ⟨h1, h2⟩
    · exact absurd (isUpper_of_toNat h1 h2) hu
    · omega

theorem asciiUpper_toNat_ne_space {c : Char} (h : c.isAlpha = true) :
    (asciiUpperChar c).toNat ≠ 32 := by
  unfold asciiUpperChar
  by_cases hl : c.isLower = true
  · rw [if_pos hl]
    obtain ⟨h1, h2⟩ := isLower_toNat hl
    have hv : (c.toNat - 32).isValidChar := Or.inl (by omega)
    rw [toNat_ofNat_valid _ hv]
    omega
  · rw [if_neg hl]
    rcases alpha_toNat h with ⟨h1, h2⟩ | ⟨h1, h2⟩
    · omega
    · exact absurd (isLower_of_toNat h1 h2) hl

theorem asciiUpper_asciiLower (c : Char) :
    asciiUpperChar (asciiLowerChar c) = asciiUpperChar c := by
  unfold asciiLowerChar
  by_cases h : c.isUpper = true
  · rw [if_pos h]
    obtain ⟨h1, h2⟩ := isUpper_toNat h
    have hv : (c.toNat + 32).isValidChar := Or.inl (by omega)
    unfold asciiUpperChar
    have hlow : (Char.ofNat (c.toNat + 32)).isLower = true := by
      apply isLower_of_toNat
      · rw [toNat_ofNat_valid _ hv]
        omega
      · rw [toNat_ofNat_valid _ hv]
        omega
    rw [if_pos hlow,
      if_neg (by rw [isLower_false_of_isUpper h]; exact Bool.false_ne_true)]
    rw [toNat_ofNat_valid _ hv]
    rw [show c.toNat + 32 - 32 = c.toNat from by omega]
    exact Char.ofNat_toNat c
  · rw [if_neg h]

theorem asciiUpper_asciiUpper (c : Char) :
    asciiUpperChar (asciiUpperChar c) = asciiUpperChar c := by
  unfold asciiUpperChar
  by_cases h : c.isLower = true
  · rw [if_pos h]
    obtain ⟨h1, h2⟩ := isLower_toNat h
    have hv : (c.toNat - 32).isValidChar := Or.inl (by omega)
    have hup : (Char.ofNat (c.toNat - 32)).isUpper = true := by
      apply isUpper_of_toNat
      · rw [toNat_ofNat_valid _ hv]
        omega
      · rw [toNat_ofNat_valid _ hv]
        omega
    rw [if_neg (by rw [isLower_false_of_isUpper hup]; exact Bool.false_ne_true)]
  · rw [if_neg h, if_neg h]

theorem replaceListAux_single (a b : Char) :
    ∀ l : List Char,
      replaceListAux [a] [b] l.length l = l.map (fun c => if c == a then b else c)
  | [] => rfl
  | c :: rest => by
    show replaceListAux [a] [b] (rest.length + 1) (c :: rest) = _
    unfold replaceListAux
    have hnil : (([] : List Char).isPrefixOf rest) = true := by
      cases rest with
      | nil => rfl
      | cons x xs => rfl
    have hpre : (!([a] : List Char).isEmpty && ([a].isPrefixOf (c :: rest))) = (c == a) := by
      show (true && (((a == c) && (([] : List Char).isPrefixOf rest)) : Bool)) = (c == a)
      rw [Bool.true_and, hnil, Bool.and_true]
      by_cases hac : a = c
      · rw [hac]
      · rw [beq_eq_false_iff_ne.mpr hac, beq_eq_false_iff_ne.mpr (Ne.symm hac)]
    rw [hpre]
    by_cases hc : (c == a) = true
    · rw [if_pos hc, List.map_cons, if_pos hc]
      show b :: replaceListAux [a] [b] rest.length rest = _
      rw [replaceListAux_single a b rest]
    · rw [if_neg hc, List.map_cons, if_neg hc]
      rw [replaceListAux_single a b rest]

theorem replaceList_single (a b : Char) (l : List Char) :
    replaceList [a] [b] l = l.map (fun c => if c == a then b else c) :=
  replaceListAux_single a b l

theorem titleAux_upper_key : ∀ (flag : Bool) (l : List Char),
    (pyTitleAux flag (l.map (fun c => if c == '_' then ' ' else c))).map
      (fun c => asciiUpperChar (if c == ' ' then '_' else c))
      = l.map (fun c => asciiUpperChar (if c == ' ' then '_' else c))
  | _, [] => rfl
  | flag, c :: rest => by
    rw [List.map_cons]
    unfold pyTitleAux
    rw [List.map_cons, List.map_cons]
    congr 1
    · by_cases hc : (c == '_') = true
      · have hce : c = '_' := beq_iff_eq.mp hc
        subst hce
        cases flag
        · decide
        · decide
      · rw [if_neg hc]
        by_cases ha : c.isAlpha = true
        · rw [if_pos ha]
          have hns : ¬((c == ' ') = true) := by
            rw [alpha_ne_space ha]
            exact Bool.false_ne_true
          by_cases hf : flag = true
          · rw [if_pos hf]
            have hls : ¬((asciiLowerChar c == ' ') = true) := by
              rw [char_ne_space_of_toNat (asciiLower_toNat_ne_space ha)]
              exact Bool.false_ne_true
            rw [if_neg hls, if_neg hns]
            exact asciiUpper_asciiLower c
          · rw [if_neg hf]
            have hus : ¬((asciiUpperChar c == ' ') = true) := by
              rw [char_ne_space_of_toNat (asciiUpper_toNat_ne_space ha)]
              exact Bool.false_ne_true
            rw [if_neg hus, if_neg hns]
            exact asciiUpper_asciiUpper c
        · rw [if_neg ha]
    · exact titleAux_upper_key _ rest

theorem junctionCleanName_upper (n : String) :
    pyUpper (junctionCleanName n) = pyUpper (spaceToUnderscore n) := by
  show String.mk ((replaceList [' '] ['_']
      (pyTitleAux false (replaceList ['_'] [' '] n.data))).map asciiUpperChar)
    = String.mk ((n.data.map (fun c => if c == ' ' then '_' else c)).map asciiUpperChar)
  rw [replaceList_single, replaceList_single]
  congr 1
  rw [List.map_map, List.map_map]
  exact titleAux_upper_key false n.data

theorem mem_addEntityList {es : List ConceptualEntity} {e e2 : ConceptualEntity}
    (h : e2 ∈ addEntityList es e) : e2 ∈ es ∨ e2 = e := by
  unfold addEntityList at h
  by_cases hc : es.any (fun e0 => e0.name == e.name) = true
  · rw [if_pos hc] at h
    obtain ⟨e0, he0, hmap⟩ := List.mem_map.mp h
    by_cases hn : (e0.name == e.name) = true
    · rw [if_pos hn] at hmap
      exact Or.inr hmap.symm
    · rw [if_neg hn] at hmap
      exact Or.inl (hmap ▸ he0)
  · rw [if_neg hc] at h
    rcases List.mem_append.mp h with h2 | h2
    · exact Or.inl h2
    · exact Or.inr (List.mem_singleton.mp h2)

theorem mem_name_eq_of_nodup {l : List Table} {i : Nat} {t2 u : Table}
    (hi : l[i]? = some t2) (hnodup : (l.map Table.name).Nodup)
    (hu : u ∈ l) (hn : u.name = t2.name) : u = t2 := by
  obtain ⟨m1, m2, hdec, _, h1, h2⟩ := nodup_name_split hi hnodup
  subst hdec
  rcases List.mem_append.mp hu with h3 | h3
  · exact absurd hn (h1 u h3)
  · rcases List.mem_cons.mp h3 with h4 | h4
    · exact h4
    · exact absurd hn (h2 u h4)

theorem contains_eq_any (l : List String) (x : String) :
    l.contains x = l.any (fun y => y == x) := by
  induction l with
  | nil => rfl
  | cons a as ih =>
    rw [List.contains_cons, List.any_cons, ih, Bool.beq_comm]

theorem contains_map_any (fks : List ForeignKey) (nm : String) :
    ((fks.map (fun fk => fk.column)).contains nm)
      = fks.any (fun fk => fk.column == nm) := by
  rw [contains_eq_any, any_map_general]

theorem fks_map_column_of_skel {u t : Table} (h : u.skel = t.skel) :
    u.foreign_keys.map (fun fk => fk.column)
      = t.foreign_keys.map (fun fk => fk.column) := by
  have h2 : (u.foreign_keys.map ForeignKey.skel).map FkSkel.column
      = (t.foreign_keys.map ForeignKey.skel).map FkSkel.column := by
    rw [skel_fks h]
  rw [List.map_map, List.map_map] at h2
  exact h2

theorem create_entities_names (s2 : DatabaseSchema) :
    ∀ e ∈ create_conceptual_entities s2,
      ∃ u : Table, u ∈ s2.tables ∧ u.is_junction_table = false ∧ e.name = u.name := by
  unfold create_conceptual_entities
  refine foldl_preserve
    (P := fun es : List ConceptualEntity => ∀ e ∈ es,
      ∃ u : Table, u ∈ s2.tables ∧ u.is_junction_table = false ∧ e.name = u.name)
    ?_ [] (by intro e he; simp at he)
  intro es u hu ih e he
  rcases mem_addEntityList he with h2 | h2
  · exact ih e h2
  · rw [List.mem_filter] at hu
    refine ⟨u, hu.1, by simpa using hu.2, ?_⟩
    rw [h2]
    rfl

theorem is_junction_length {t : Table} (h : t.is_junction_table = true) :
    t.foreign_keys.length = 2 := by
  unfold Table.is_junction_table at h
  by_cases hl : (t.foreign_keys.length != 2) = true
  · rw [if_pos hl] at h
    simp at h
  · have := Bool.not_eq_true _ ▸ hl
    rw [bne_eq_false_iff_eq] at this
    exact this

theorem junction_fks_pair {t : Table} (h : t.is_junction_table = true) :
    ∃ g1 g2 : ForeignKey, t.foreign_keys = [g1, g2] := by
  have hlen := is_junction_length h
  cases hf : t.foreign_keys with
  | nil =>
    rw [hf] at hlen
    simp at hlen
  | cons a tl =>
    cases htl : tl with
    | nil =>
      rw [hf, htl] at hlen
      simp at hlen
    | cons b tl2 =>
      cases htl2 : tl2 with
      | nil => exact ⟨a, b, rfl⟩
      | cons x xs =>
        rw [hf, htl, htl2] at hlen
        simp at hlen

theorem junction_rels_filter (tname : String) :
    ∀ ts : List Table, (∀ u ∈ ts, u.is_junction_table = true) →
      ((ts.filterMap (fun t0 => match t0.foreign_keys with
          | fk1 :: fk2 :: _ => some (junctionRelationship t0 fk1 fk2)
          | _ => none)).filter
        (fun r => r.source_junction_table == some tname))
      = (ts.filter (fun u => u.name == tname)).filterMap
          (fun t0 => match t0.foreign_keys with
            | fk1 :: fk2 :: _ => some (junctionRelationship t0 fk1 fk2)
            | _ => none)
  | [], _ => rfl
  | u :: rest, h => by
    obtain ⟨g1, g2, hgs⟩ := junction_fks_pair (h u (List.mem_cons_self u rest))
    rw [List.filterMap_cons, List.filter_cons, hgs]
    have ih := junction_rels_filter tname rest (fun x hx => h x (List.mem_cons_of_mem u hx))
    by_cases hn : (u.name == tname) = true
    · rw [if_pos hn]
      show (junctionRelationship u g1 g2 :: _).filter _ = _
      rw [List.filter_cons,
        if_pos (show ((junctionRelationship u g1 g2).source_junction_table
          == some tname) = true by
            show (some u.name == some tname) = true
            simpa using hn),
        List.filterMap_cons, hgs]
      show _ = junctionRelationship u g1 g2 :: _
      rw [ih]
    · rw [if_neg hn]
      show (junctionRelationship u g1 g2 :: _).filter _ = _
      rw [List.filter_cons,
        if_neg (show ¬((junctionRelationship u g1 g2).source_junction_table
          == some tname) = true by
            show ¬((some u.name == some tname) = true)
            simpa using hn)]
      exact ih

theorem fkRels_sjt (s2 : DatabaseSchema) :
    ∀ r ∈ (s2.tables.filter (fun t0 => !t0.is_junction_table)).flatMap
        (fun t0 => t0.foreign_keys.map (relationshipOfFk t0)),
      r.source_junction_table = none := by
  intro r hr
  obtain ⟨u, _, hr2⟩ := List.mem_flatMap.mp hr
  obtain ⟨fk, _, hfk⟩ := List.mem_map.mp hr2
  rw [← hfk]
  rfl

theorem filter_name_singleton {l : List Table} {i : Nat} {t2 : Table}
    (hi : l[i]? = some t2) (hnodup : (l.map Table.name).Nodup) :
    l.filter (fun u => u.name == t2.name) = [t2] := by
  obtain ⟨m1, m2, hdec, _, h1, h2⟩ := nodup_name_split hi hnodup
  subst hdec
  rw [List.filter_append, List.filter_cons]
  have e1 : m1.filter (fun u => u.name == t2.name) = [] := by
    rw [List.filter_eq_nil_iff]
    intro u hu
    simpa using h1 u hu
  have e2 : m2.filter (fun u => u.name == t2.name) = [] := by
    rw [List.filter_eq_nil_iff]
    intro u hu
    simpa using h2 u hu
  rw [e1, e2, if_pos (by simp)]
  rfl

/-- C2 (amended): for every table passing the junction test (exactly two
foreign keys whose local columns cover the primary key), all table names
distinct: the enricher excludes the table from the entity set and
synthesizes exactly one relationship with cardinality `MANY_TO_MANY`
between the two referenced entities, carrying as attributes every
non-foreign-key column, named from the junction table's name with spaces
replaced by underscores and then upper-cased (not the bare name
upper-cased — the title-case mangling turns each space into an
underscore, see `c2_counterexample`).  The scenario facts hold, the
transformer one on the schema fallback path (the conceptual path raises,
see C1): zero entities named `enrollments`, one `MANY_TO_MANY`
relationship `ENROLLMENTS` from `students` to `courses` with attributes
`enrollment_date` and `grade`, and a `RelationshipType` named
`ENROLLMENTS` from label `Students` to label `Courses` with two
properties. -/
theorem c2_junction_tables (s : DatabaseSchema) (i : Nat) (t : Table)
    (hnodup : (s.tables.map Table.name).Nodup)
    (ht : s.tables[i]? = some t)
    (hj : t.is_junction_table = true) :
    (∀ e ∈ (enrich s).entities, e.name ≠ t.name) ∧
    ((enrich s).relationships.filter
      (fun r => r.source_junction_table == some t.name)).length = 1 ∧
    (∀ r ∈ (enrich s).relationships, r.source_junction_table = some t.name →
      r.cardinality = RelationshipCardinality.MANY_TO_MANY ∧
      r.name = pyUpper (spaceToUnderscore t.name) ∧
      (∃ f1 f2 : ForeignKey, t.foreign_keys[0]? = some f1 ∧
        t.foreign_keys[1]? = some f2 ∧
        r.source_entity = f1.referenced_table ∧
        r.target_entity = f2.referenced_table) ∧
      r.attributes = (nonFkColumns t).map (fun c => c.name)) ∧
    ((enrich scenarioSchema).entities.filter
      (fun e => e.name == "enrollments")).length = 0 ∧
    ((enrich scenarioSchema).relationships.filter
      (fun r => r.name == "ENROLLMENTS")).map
        (fun r => (r.cardinality, r.source_entity, r.target_entity, r.attributes))
      = [(RelationshipCardinality.MANY_TO_MANY, "students", "courses",
          ["enrollment_date", "grade"])] ∧
    (Except.toOption (transform (some scenarioSchema) none)).map
        (fun g => (assocGet g.relationship_types "Students_ENROLLMENTS_Courses").map
          (fun r => (r.name, r.from_label, r.to_label, r.properties.length)))
      = some (some ("ENROLLMENTS", "Students", "Courses", 2)) := by
  have hskE : (enrichSchema s).1.skel = s.skel := enrichSchema_skel s
  have hnamesE : (enrichSchema s).1.tables.map Table.name = s.tables.map Table.name :=
    schema_names_of_skel hskE
  have nodupE : ((enrichSchema s).1.tables.map Table.name).Nodup := by
    rw [hnamesE]
    exact hnodup
  obtain ⟨t2, hts, hts2⟩ := skel_getElem hskE ht
  have hjt2 : t2.is_junction_table = true := by
    rw [is_junction_of_skel hts2]
    exact hj
  have htn2 : t2.name = t.name := skel_name hts2
  obtain ⟨g1, g2, hgs⟩ := junction_fks_pair hjt2
  obtain ⟨f1, f2, hfs⟩ := junction_fks_pair hj
  have hskfks := skel_fks hts2
  rw [hgs, hfs] at hskfks
  have hg1 : g1.skel = f1.skel := by
    have h5 := congrArg (fun l => l[0]?) hskfks
    simpa using h5
  have hg2 : g2.skel = f2.skel := by
    have h5 := congrArg (fun l => l[1]?) hskfks
    simpa using h5
  have hrels : (enrich s).relationships
      = ((enrichSchema s).1.tables.filter (fun t0 => !t0.is_junction_table)).flatMap
          (fun t0 => t0.foreign_keys.map (relationshipOfFk t0))
        ++ ((enrichSchema s).1.tables.filter
            (fun t0 => t0.is_junction_table)).filterMap
          (fun t0 => match t0.foreign_keys with
            | fk1 :: fk2 :: _ => some (junctionRelationship t0 fk1 fk2)
            | _ => none) := rfl
  refine ⟨?_, ?_, ?_, rfl, rfl, rfl⟩
  · intro e he hc
    obtain ⟨u, hu, hju, hen⟩ := create_entities_names (enrichSchema s).1 e he
    have hun : u.name = t.name := by
      rw [← hen]
      exact hc
    have huT : u = t2 := mem_name_eq_of_nodup hts nodupE hu (by rw [hun, htn2])
    rw [huT] at hju
    exact absurd hjt2 (by rw [hju]; exact Bool.false_ne_true)
  · rw [hrels, List.filter_append]
    have hfk0 : (((enrichSchema s).1.tables.filter
        (fun t0 => !t0.is_junction_table)).flatMap
        (fun t0 => t0.foreign_keys.map (relationshipOfFk t0))).filter
          (fun r => r.source_junction_table == some t.name) = [] := by
      rw [List.filter_eq_nil_iff]
      intro r hr
      rw [fkRels_sjt (enrichSchema s).1 r hr]
      simp
    rw [hfk0, List.nil_append]
    rw [junction_rels_filter t.name _ (fun u hu => (List.mem_filter.mp hu).2)]
    have hsing : ((enrichSchema s).1.tables.filter
        (fun t0 => t0.is_junction_table)).filter (fun u => u.name == t.name)
        = [t2] := by
      rw [List.filter_filter]
      obtain ⟨m1, m2, hdec, _, hm1, hm2⟩ := nodup_name_split hts nodupE
      rw [hdec, List.filter_append, List.filter_cons]
      have e1 : m1.filter (fun u => (u.name == t.name) && u.is_junction_table) = [] := by
        rw [List.filter_eq_nil_iff]
        intro u hu
        have hne : u.name ≠ t.name := by
          rw [← htn2]
          exact hm1 u hu
        simp [hne]
      have e2 : m2.filter (fun u => (u.name == t.name) && u.is_junction_table) = [] := by
        rw [List.filter_eq_nil_iff]
        intro u hu
        have hne : u.name ≠ t.name := by
          rw [← htn2]
          exact hm2 u hu
        simp [hne]
      rw [e1, e2,
        if_pos (by rw [Bool.and_eq_true]; exact ⟨by simpa using htn2, hjt2⟩)]
      rfl
    rw [hsing]
    have hfm : ([t2].filterMap (fun t0 => match t0.foreign_keys with
        | fk1 :: fk2 :: _ => some (junctionRelationship t0 fk1 fk2)
        | _ => none)) = [junctionRelationship t2 g1 g2] := by
      simp only [List.filterMap_cons, hgs]
      rfl
    rw [hfm]
    rfl
  · intro r hr hsjt
    rw [hrels] at hr
    rcases List.mem_append.mp hr with hfkr | hjr
    · rw [fkRels_sjt _ r hfkr] at hsjt
      exact Option.noConfusion hsjt
    · obtain ⟨u, hu, hju⟩ := List.mem_filterMap.mp hjr
      have hjun : u.is_junction_table = true := (List.mem_filter.mp hu).2
      obtain ⟨w1, w2, hws⟩ := junction_fks_pair hjun
      rw [hws] at hju
      injection hju with hju
      rw [← hju] at hsjt
      have hsju : u.name = t.name := by
        have h5 : (some u.name : Option String) = some t.name := hsjt
        exact Option.some.inj h5
      have huT : u = t2 :=
        mem_name_eq_of_nodup hts nodupE (List.mem_filter.mp hu).1 (by rw [hsju, htn2])
      rw [huT] at hju hws
      rw [hgs] at hws
      injection hws with hw1 hws2
      injection hws2 with hw2 hws3
      subst hw1
      subst hw2
      rw [← hju]
      refine ⟨rfl, ?_, ?_, ?_⟩
      · show pyUpper (junctionCleanName t2.name) = _
        rw [htn2, junctionCleanName_upper]
      · refine ⟨f1, f2, by rw [hfs]; simp, by rw [hfs]; simp, ?_, ?_⟩
        · show g1.referenced_table = f1.referenced_table
          exact fkSkel_referenced_table hg1
        · show g2.referenced_table = f2.referenced_table
          exact fkSkel_referenced_table hg2
      · show ((t2.columns.filter (fun c =>
            !((t2.foreign_keys.map (fun fk => fk.column)).contains c.name))).map
            (fun c => c.name)) = _
        rw [skel_columns hts2, fks_map_column_of_skel hts2]
        have hfun : (fun c : Column =>
            !((t.foreign_keys.map (fun fk => fk.column)).contains c.name))
            = (fun c : Column =>
                !(t.foreign_keys.any (fun fk => fk.column == c.name))) := by
          funext c
          rw [contains_map_any]
        rw [hfun]
        rfl

/-- Witness for `c2_junction_tables` at the scenario schema's
`enrollments` table. -/
theorem c2_junction_tables_witness :
    (∀ e ∈ (enrich scenarioSchema).entities, e.name ≠ enrollmentsTable.name) ∧
    ((enrich scenarioSchema).relationships.filter
      (fun r => r.source_junction_table == some enrollmentsTable.name)).length = 1 ∧
    (∀ r ∈ (enrich scenarioSchema).relationships,
      r.source_junction_table = some enrollmentsTable.name →
      r.cardinality = RelationshipCardinality.MANY_TO_MANY ∧
      r.name = pyUpper (spaceToUnderscore enrollmentsTable.name) ∧
      (∃ f1 f2 : ForeignKey, enrollmentsTable.foreign_keys[0]? = some f1 ∧
        enrollmentsTable.foreign_keys[1]? = some f2 ∧
        r.source_entity = f1.referenced_table ∧
        r.target_entity = f2.referenced_table) ∧
      r.attributes = (nonFkColumns enrollmentsTable).map (fun c => c.name)) ∧
    ((enrich scenarioSchema).entities.filter
      (fun e => e.name == "enrollments")).length = 0 ∧
    ((enrich scenarioSchema).relationships.filter
      (fun r => r.name == "ENROLLMENTS")).map
        (fun r => (r.cardinality, r.source_entity, r.target_entity, r.attributes))
      = [(RelationshipCardinality.MANY_TO_MANY, "students", "courses",
          ["enrollment_date", "grade"])] ∧
    (Except.toOption (transform (some scenarioSchema) none)).map
        (fun g => (assocGet g.relationship_types "Students_ENROLLMENTS_Courses").map
          (fun r => (r.name, r.from_label, r.to_label, r.properties.length)))
      = some (some ("ENROLLMENTS", "Students", "Courses", 2)) :=
  c2_junction_tables scenarioSchema 3 enrollmentsTable (by decide) rfl (by decide)

/-- Counterexample to C2 as stated.  For the junction table named
`order items` (a name containing a space), the synthesized relationship
is named `ORDER_ITEMS` — the title-case mangling replaces the space by an
underscore — while the claim's "junction table's own name upper-cased"
would be `ORDER ITEMS`. -/
theorem c2_counterexample :
    (enrich spaceSchema).relationships.map (fun r => r.name) = ["ORDER_ITEMS"] ∧
    pyUpper orderItemsTable.name = "ORDER ITEMS" ∧
    ("ORDER_ITEMS" : String) ≠ "ORDER ITEMS" :=
  ⟨rfl, rfl, by decide⟩

/-- Witness for `c8_enricher_totality`: the unknown cardinality string
`"2:3"` and the end-to-end scenario schema. -/
theorem c8_enricher_totality_witness :
    parse_cardinality "2:3" = RelationshipCardinality.MANY_TO_ONE ∧
    (∀ (k : Nat) (t : Table), (enrichSchema scenarioSchema).1.tables[k]? = some t →
      ∀ (j : Nat) (fk : ForeignKey), t.foreign_keys[j]? = some fk →
        pyTruthy fk.cardinality = true ∧ pyTruthy fk.relationship_name = true) :=
  c8_enricher_totality scenarioSchema "2:3" (by decide) (by decide) (by decide) (by decide)

end RDB
